import Mathlib

/-!
Verification of the conversational-memory, query-optimization,
citation-verification and storage core of the PDF-crewai repository
(src/utils/chat_manager.py, query_optimizer.py, citation_engine.py,
storage_manager.py).

Modelling conventions:
* a Python `str` is a `List Char` (a sequence of unicode code points);
* `datetime.now()` timestamps are threaded explicitly as `Nat` arguments;
* Python dictionaries are insertion-ordered association lists
  (Python 3.7+ semantics: a new key is appended, an existing key keeps
  its position);
* Python `float` scores are modelled as exact rationals (`Rat`);
* character classes (`\s`, `\d`, `\w`, `lower`, `upper`) follow the
  ASCII fragment of Python's semantics; every input exercised by the
  claims is ASCII.
-/

namespace PDFCrew

/-- ASCII whitespace: the fragment of Python `str.isspace` / regex `\s`
used here (space, tab, newline, carriage return, vertical tab, form feed). -/
def isSpace (c : Char) : Bool :=
  c = ' ' || c = '\t' || c = '\n' || c = '\r' || c = Char.ofNat 11 || c = Char.ofNat 12

/-- ASCII decimal digit (Python regex `\d`, ASCII fragment). -/
def isDigit (c : Char) : Bool := '0' ≤ c && c ≤ '9'

/-- ASCII word character (Python regex `\w`, ASCII fragment). -/
def isWordChar (c : Char) : Bool :=
  ('a' ≤ c && c ≤ 'z') || ('A' ≤ c && c ≤ 'Z') || isDigit c || c = '_'

/-- ASCII lower-casing of one character (fragment of Python `str.lower`). -/
def lowerChar (c : Char) : Char :=
  if 'A' ≤ c && c ≤ 'Z' then Char.ofNat (c.toNat + 32) else c

/-- ASCII upper-casing of one character (fragment of Python `str.upper`). -/
def upperChar (c : Char) : Char :=
  if 'a' ≤ c && c ≤ 'z' then Char.ofNat (c.toNat - 32) else c

/-- Python `s.lower()` (ASCII fragment). -/
def lowerStr (s : List Char) : List Char := s.map lowerChar

/-- Python `s.upper()` (ASCII fragment). -/
def upperStr (s : List Char) : List Char := s.map upperChar

/-- Auxiliary worker for `splitWs`; the fuel argument only forces
termination and is always called with at least the length of the list. -/
def splitWsAux : Nat → List Char → List (List Char)
  | 0, _ => []
  | fuel + 1, l =>
    match l.dropWhile isSpace with
    | [] => []
    | c :: rest =>
      let w := (c :: rest).takeWhile (fun c => !isSpace c)
      w :: splitWsAux fuel ((c :: rest).drop w.length)

/-- Python `str.split()` with no arguments: split on runs of whitespace,
discarding empty fields. -/
def splitWs (l : List Char) : List (List Char) := splitWsAux l.length l

/-- Python `sep.join(words)`. -/
def joinSep (sep : List Char) : List (List Char) → List Char
  | [] => []
  | [w] => w
  | w :: ws => w ++ sep ++ joinSep sep ws

/-- Python `' '.join(words)`. -/
def joinSpace (ws : List (List Char)) : List Char := joinSep [' '] ws

/-- Python `s.strip()` (ASCII whitespace fragment). -/
def stripStr (s : List Char) : List Char :=
  ((s.dropWhile isSpace).reverse.dropWhile isSpace).reverse

/-- The last `n` elements of a list (all of it when it is shorter). -/
def lastN (n : Nat) (l : List α) : List α := l.drop (l.length - n)

/-- `leadsWith pat l`: `pat` is a leading segment of `l`. -/
def leadsWith : List Char → List Char → Bool
  | [], _ => true
  | _ :: _, [] => false
  | p :: ps, c :: cs => p = c && leadsWith ps cs

/-- Python `pat in hay` for strings: contiguous substring test. -/
def containsSub : List Char → List Char → Bool
  | hay@(_ :: t), pat => leadsWith pat hay || containsSub t pat
  | [], pat => pat.isEmpty

/-! ## ConversationContext (src/utils/chat_manager.py, lines 13-92) -/

/-- A Python metadata dictionary; its contents are never inspected by
the code under verification. -/
abbrev MetaDict := List (List Char × List Char)

/-- One conversation message, as built by
`ConversationContext.add_message`. -/
structure Message where
  role : List Char
  content : List Char
  timestamp : Nat
  metadata : MetaDict
deriving DecidableEq

/-- One tracked topic, as built by `ConversationContext._track_topic`. -/
structure Topic where
  topic : List Char
  timestamp : Nat
deriving DecidableEq

/-- The state of a `ConversationContext`: a `deque(maxlen=max_history)`
of messages plus the topic list. The unused `metadata` dict of the class
is omitted. -/
structure ConversationContext where
  max_history : Nat
  max_tokens : Nat
  messages : List Message
  topic_tracking : List Topic
deriving DecidableEq

/-- `ConversationContext.__init__` (the source defaults are
`max_history=10`, `max_tokens=4000`). -/
def mkConversationContext (max_history max_tokens : Nat) : ConversationContext :=
  { max_history := max_history, max_tokens := max_tokens,
    messages := [], topic_tracking := [] }

/-- `ConversationContext._track_topic`: appends the first five
(lower-cased) whitespace-separated tokens when the content has more than
three tokens, keeping only the last 20 topics. -/
def trackTopic (topics : List Topic) (content : List Char) (now : Nat) : List Topic :=
  let words := splitWs (lowerStr content)
  if 3 < words.length then
    let t := topics ++ [{ topic := joinSpace (words.take 5), timestamp := now }]
    if 20 < t.length then lastN 20 t else t
  else topics

/-- `ConversationContext.add_message`: appends to the
`deque(maxlen=max_history)` (which evicts from the left on overflow) and
tracks a topic for user messages. -/
def add_message (ctx : ConversationContext) (role content : List Char)
    (metadata : Option MetaDict) (now : Nat) : ConversationContext :=
  let m : Message :=
    { role := role, content := content, timestamp := now,
      metadata := metadata.getD [] }
  let msgs := ctx.messages ++ [m]
  let msgs := if ctx.max_history < msgs.length
              then msgs.drop (msgs.length - ctx.max_history) else msgs
  let ctx' := { ctx with messages := msgs }
  if role = "user".toList then
    { ctx' with topic_tracking := trackTopic ctx'.topic_tracking content now }
  else ctx'

/-- An entry of the list returned by `get_context_window`
(`{'role': ..., 'content': ...}`). -/
structure WindowMessage where
  role : List Char
  content : List Char
deriving DecidableEq

/-- The heuristic token estimate `len(msg['content']) // 4`. -/
def msgTokens (m : Message) : Nat := m.content.length / 4

/-- Projection of a stored message to a context-window entry. -/
def windowOf (m : Message) : WindowMessage := { role := m.role, content := m.content }

/-- The accumulation loop of `get_context_window`: walks the reversed
message list, breaking at the first message whose addition would exceed
`max_tokens`, prepending accepted messages (Python `insert(0, ...)`). -/
def windowLoop (max_tokens : Nat) :
    List Message → Nat → List WindowMessage → List WindowMessage
  | [], _, acc => acc
  | m :: rest, total, acc =>
    if max_tokens < total + msgTokens m then acc
    else windowLoop max_tokens rest (total + msgTokens m) (windowOf m :: acc)

/-- `ConversationContext.get_context_window` (its `include_system`
parameter is unused in the source and omitted here). -/
def get_context_window (ctx : ConversationContext) : List WindowMessage :=
  windowLoop ctx.max_tokens ctx.messages.reverse 0 []

/-- Summed heuristic token estimate of a context window. -/
def windowTokens (l : List WindowMessage) : Nat :=
  (l.map (fun w => w.content.length / 4)).sum

/-- Summed heuristic token estimate of stored messages. -/
def tokenSum (l : List Message) : Nat := (l.map msgTokens).sum

/-! ## QueryOptimizer.score_question_quality
(src/utils/query_optimizer.py, lines 16-96) -/

/-- `QueryOptimizer.VAGUE_PATTERNS`. -/
def VAGUE_PATTERNS : List (List Char) :=
  ["tell me about".toList, "explain this".toList, "what is this".toList,
   "describe".toList, "give me information".toList, "what about".toList,
   "talk about".toList]

/-- `QueryOptimizer.BROAD_PATTERNS`. -/
def BROAD_PATTERNS : List (List Char) :=
  ["everything".toList, "all information".toList, "complete".toList,
   "entire".toList, "whole".toList, "every".toList, "all details".toList,
   "comprehensive".toList]

/-- `QueryOptimizer.OPTIMAL_INDICATORS`. -/
def OPTIMAL_INDICATORS : List (List Char) :=
  ["page".toList, "section".toList, "paragraph".toList, "clause".toList,
   "chapter".toList, "specific".toList, "particular".toList, "exact".toList,
   "line".toList]

/-- Exact subtraction of rationals, stated through `mkRat` so that it is
kernel-reducible (the library's `Rat.sub` is irreducible by design). -/
def pySub (a b : Rat) : Rat := mkRat (a.num * b.den - b.num * a.den) (a.den * b.den)

/-- Exact addition of rationals, stated through `mkRat` so that it is
kernel-reducible. -/
def pyAdd (a b : Rat) : Rat := mkRat (a.num * b.den + b.num * a.den) (a.den * b.den)

/-- Python `max(a, b)` on two numbers, kernel-reducible on `Rat`. -/
def ratMax (a b : Rat) : Rat := if a ≤ b then b else a

/-- Python `min(a, b)` on two numbers, kernel-reducible on `Rat`. -/
def ratMin (a b : Rat) : Rat := if a ≤ b then a else b

/-- Result dict of `score_question_quality`. -/
structure QualityResult where
  score : Rat
  quality : List Char
  suggestions : List (List Char)
  issues : List (List Char)
deriving DecidableEq

/-- `QueryOptimizer.score_question_quality`: starts at 1.0, applies the
four deductions and one bonus, clamps to [0,1] and maps the score to a
quality label by fixed thresholds. -/
def score_question_quality (question : List Char) : QualityResult :=
  let ql := lowerStr question
  let score : Rat := 1
  let issues : List (List Char) := []
  let suggestions : List (List Char) := []
  let (score, issues, suggestions) :=
    if VAGUE_PATTERNS.any (fun p => containsSub ql p) then
      (pySub score (mkRat 3 10), issues ++ ["Question is too vague".toList],
       suggestions ++ ["Be more specific about what you want to know".toList])
    else (score, issues, suggestions)
  let (score, issues, suggestions) :=
    if BROAD_PATTERNS.any (fun p => containsSub ql p) then
      (pySub score (mkRat 4 10), issues ++ ["Question is too broad".toList],
       suggestions ++ ["Focus on a specific aspect or section".toList])
    else (score, issues, suggestions)
  let score :=
    if OPTIMAL_INDICATORS.any (fun p => containsSub ql p) then
      pyAdd score (mkRat 2 10)
    else score
  let word_count := (splitWs question).length
  let (score, issues, suggestions) :=
    if word_count < 3 then
      (pySub score (mkRat 2 10), issues ++ ["Question is too short".toList],
       suggestions ++ ["Add more context to your question".toList])
    else if 50 < word_count then
      (pySub score (mkRat 1 10), issues ++ ["Question is very long".toList],
       suggestions ++ ["Try breaking into multiple shorter questions".toList])
    else (score, issues, suggestions)
  let score := ratMax 0 (ratMin 1 score)
  let quality :=
    if mkRat 8 10 ≤ score then "optimal".toList
    else if mkRat 6 10 ≤ score then "good".toList
    else if mkRat 4 10 ≤ score then "vague".toList
    else "too_broad".toList
  { score := score, quality := quality, suggestions := suggestions, issues := issues }

/-! ## Supporting lemmas -/

theorem take_append_take (a b : List α) (n : Nat) :
    (a ++ b.take n).take n = (a ++ b).take n := by
  rw [List.take_append_eq_append_take, List.take_append_eq_append_take,
    List.take_take]
  have : min (n - a.length) n = n - a.length := Nat.min_eq_left (Nat.sub_le _ _)
  rw [this]

theorem lastN_eq_rev (n : Nat) (l : List α) :
    lastN n l = (l.reverse.take n).reverse := by
  induction l with
  | nil => simp [lastN]
  | cons c t ih =>
    by_cases h : n ≤ t.length
    · have h1 : (c :: t).length - n = (t.length - n) + 1 := by
        simp only [List.length_cons]; omega
      have h2 : (c :: t).reverse.take n = t.reverse.take n := by
        rw [List.reverse_cons, List.take_append_eq_append_take]
        simp [Nat.sub_eq_zero_of_le, h, List.length_reverse]
      rw [lastN, h1, List.drop_succ_cons, h2, ← ih, lastN]
    · have h1 : (c :: t).length - n = 0 := by simp only [List.length_cons]; omega
      have h2 : (c :: t).reverse.take n = (c :: t).reverse := by
        apply List.take_of_length_le
        simp only [List.length_reverse, List.length_cons]; omega
      rw [lastN, h1, List.drop_zero, h2, List.reverse_reverse]

theorem lastN_append_lastN (n : Nat) (xs ys : List α) :
    lastN n (lastN n xs ++ ys) = lastN n (xs ++ ys) := by
  rw [lastN_eq_rev n (lastN n xs ++ ys), lastN_eq_rev n (xs ++ ys),
    lastN_eq_rev n xs]
  rw [List.reverse_append, List.reverse_reverse, List.reverse_append,
    take_append_take]

theorem lastN_length_le (n : Nat) (l : List α) : (lastN n l).length ≤ n := by
  simp only [lastN, List.length_drop]; omega

/-! ## Claim C1 -/

/-- One `add_message` call: role, content, optional metadata and the
clock value observed by `datetime.now()`. -/
structure AddCall where
  role : List Char
  content : List Char
  metadata : Option MetaDict
  now : Nat

/-- The message record a call appends. -/
def msgOfCall (c : AddCall) : Message :=
  { role := c.role, content := c.content, timestamp := c.now,
    metadata := c.metadata.getD [] }

/-- Run a sequence of `add_message` calls. -/
def runCalls (ctx : ConversationContext) (calls : List AddCall) : ConversationContext :=
  calls.foldl (fun ctx c => add_message ctx c.role c.content c.metadata c.now) ctx

theorem add_message_messages (ctx : ConversationContext) (r c : List Char)
    (md : Option MetaDict) (now : Nat) :
    (add_message ctx r c md now).messages
      = lastN ctx.max_history
          (ctx.messages ++ [{ role := r, content := c, timestamp := now,
                              metadata := md.getD [] }]) := by
  have key : ∀ (l : List Message) (mh : Nat),
      (if mh < l.length then l.drop (l.length - mh) else l) = lastN mh l := by
    intro l mh
    split
    · rfl
    · next hle =>
      rw [lastN, Nat.sub_eq_zero_of_le (Nat.le_of_not_lt hle), List.drop_zero]
  simp only [add_message]
  split <;> exact key _ _

theorem add_message_max_history (ctx : ConversationContext) (r c : List Char)
    (md : Option MetaDict) (now : Nat) :
    (add_message ctx r c md now).max_history = ctx.max_history := by
  simp only [add_message]
  split <;> rfl

theorem runCalls_messages (calls : List AddCall) :
    ∀ ctx : ConversationContext, ctx.messages.length ≤ ctx.max_history →
    (runCalls ctx calls).messages
        = lastN ctx.max_history (ctx.messages ++ calls.map msgOfCall)
      ∧ (runCalls ctx calls).max_history = ctx.max_history := by
  induction calls with
  | nil =>
    intro ctx h
    have : ctx.messages.length - ctx.max_history = 0 := Nat.sub_eq_zero_of_le h
    simp [runCalls, lastN, this]
  | cons c cs ih =>
    intro ctx h
    have hrun : runCalls ctx (c :: cs)
        = runCalls (add_message ctx c.role c.content c.metadata c.now) cs := rfl
    set ctx' := add_message ctx c.role c.content c.metadata c.now with hctx'
    have hmsgs : ctx'.messages
        = lastN ctx.max_history (ctx.messages ++ [msgOfCall c]) :=
      add_message_messages ctx c.role c.content c.metadata c.now
    have hmh : ctx'.max_history = ctx.max_history :=
      add_message_max_history ctx c.role c.content c.metadata c.now
    have hlen : ctx'.messages.length ≤ ctx'.max_history := by
      rw [hmsgs, hmh]; exact lastN_length_le _ _
    obtain ⟨h1, h2⟩ := ih ctx' hlen
    rw [hrun, h1, h2, hmh, hmsgs, lastN_append_lastN]
    constructor
    · congr 1
      simp [List.append_assoc]
    · rfl

/-- C1: for every sequence of `add_message` calls starting from a fresh
`ConversationContext` with capacity `max_history`, the stored message
sequence is exactly the last `max_history` of all appended messages (in
insertion order, oldest evicted first) and never holds more than
`max_history` messages. -/
theorem add_message_fifo_bounded (mh mt : Nat) (calls : List AddCall) :
    (runCalls (mkConversationContext mh mt) calls).messages
        = lastN mh (calls.map msgOfCall)
      ∧ (runCalls (mkConversationContext mh mt) calls).messages.length ≤ mh := by
  obtain ⟨h1, _⟩ := runCalls_messages calls (mkConversationContext mh mt)
    (by simp [mkConversationContext])
  refine ⟨?_, ?_⟩
  · simpa [mkConversationContext] using h1
  · rw [h1]; simpa [mkConversationContext] using lastN_length_le mh _

/-! ## Claim C2 -/

theorem tokenSum_reverse (l : List Message) : tokenSum l.reverse = tokenSum l := by
  simp [tokenSum, List.map_reverse, List.sum_reverse]

theorem windowTokens_map (l : List Message) :
    windowTokens (l.map windowOf) = tokenSum l := by
  simp [windowTokens, tokenSum, List.map_map]
  rfl

theorem windowLoop_spec (mt : Nat) (l : List Message) :
    ∀ (total : Nat) (acc : List WindowMessage), total ≤ mt →
    ∃ j, j ≤ l.length ∧
      windowLoop mt l total acc = ((l.take j).reverse.map windowOf) ++ acc ∧
      total + tokenSum (l.take j) ≤ mt ∧
      (j = l.length ∨ ∃ m, l[j]? = some m ∧
        mt < total + tokenSum (l.take j) + msgTokens m) := by
  induction l with
  | nil =>
    intro total acc htot
    exact ⟨0, Nat.le_refl 0, rfl, by simpa [tokenSum] using htot, Or.inl rfl⟩
  | cons m rest ih =>
    intro total acc htot
    by_cases h : mt < total + msgTokens m
    · refine ⟨0, Nat.zero_le _, ?_, by simpa [tokenSum] using htot, ?_⟩
      · simp [windowLoop, h]
      · exact Or.inr ⟨m, by simp, by simpa [tokenSum] using h⟩
    · have htot' : total + msgTokens m ≤ mt := Nat.le_of_not_lt h
      obtain ⟨j, hj, heq, hsum, hstop⟩ := ih (total + msgTokens m) (windowOf m :: acc) htot'
      refine ⟨j + 1, by simpa using Nat.succ_le_succ hj, ?_, ?_, ?_⟩
      · rw [windowLoop, if_neg h, heq]
        simp [List.take_succ_cons, List.map_append]
      · simpa [List.take_succ_cons, tokenSum, Nat.add_assoc] using hsum
      · rcases hstop with h' | ⟨m', hm', hlt⟩
        · exact Or.inl (by simp [h'])
        · refine Or.inr ⟨m', by simpa using hm', ?_⟩
          simpa [List.take_succ_cons, tokenSum, Nat.add_assoc] using hlt

/-- C2: `get_context_window` returns a window whose summed heuristic
token estimates (`len(content) // 4` per message) never exceed
`max_tokens`; the window is the chronologically ordered block of the
most recent messages (a suffix, dropping some `k` oldest), and it stops
exactly at the first older message whose addition would exceed the
budget. -/
theorem get_context_window_budget (ctx : ConversationContext) :
    windowTokens (get_context_window ctx) ≤ ctx.max_tokens ∧
    ∃ k, k ≤ ctx.messages.length ∧
      get_context_window ctx = (ctx.messages.drop k).map windowOf ∧
      (k = 0 ∨ ∃ m, ctx.messages[k - 1]? = some m ∧
        ctx.max_tokens < windowTokens (get_context_window ctx) + msgTokens m) := by
  obtain ⟨j, hj, heq, hsum, hstop⟩ :=
    windowLoop_spec ctx.max_tokens ctx.messages.reverse 0 [] (Nat.zero_le _)
  have hrevlen : ctx.messages.reverse.length = ctx.messages.length :=
    List.length_reverse _
  have hdropeq : (ctx.messages.reverse.take j).reverse
      = ctx.messages.drop (ctx.messages.length - j) := (lastN_eq_rev j ctx.messages).symm
  have hwin : get_context_window ctx
      = (ctx.messages.drop (ctx.messages.length - j)).map windowOf := by
    rw [get_context_window, heq, List.append_nil, hdropeq]
  have hts : windowTokens (get_context_window ctx)
      = tokenSum (ctx.messages.reverse.take j) := by
    rw [hwin, windowTokens_map, ← hdropeq, tokenSum_reverse]
  refine ⟨by rw [hts]; simpa using hsum, ctx.messages.length - j, Nat.sub_le _ _, hwin, ?_⟩
  rcases hstop with h' | ⟨m, hm, hlt⟩
  · exact Or.inl (by rw [h', hrevlen]; exact Nat.sub_self _)
  · have hjlt : j < ctx.messages.length := by
      obtain ⟨h1, -⟩ := List.getElem?_eq_some.mp hm
      omega
    refine Or.inr ⟨m, ?_, by rw [hts]; simpa using hlt⟩
    rw [← hm, List.getElem?_reverse hjlt]
    congr 1
    omega

/-! ## Claim C9 -/

/-- C9 counterexample: `score_question_quality("Tell me about the
contract")` does not yield a score strictly below 0.6 with quality
'vague' as claimed; the only applicable deduction is the 0.3
vague-phrase deduction. -/
theorem score_tell_me_about_contract_not_vague :
    ¬((score_question_quality "Tell me about the contract".toList).score < mkRat 3 5
      ∧ (score_question_quality "Tell me about the contract".toList).quality
          = "vague".toList) := by decide

/-- C9 amended: `score_question_quality("Tell me about the contract")`
returns score 0.7 and quality 'good': the question contains the vague
pattern "tell me about" (score 1.0 - 0.3 = 0.7), no other deduction or
bonus applies, and 0.7 maps to 'good' (≥ 0.6), not 'vague', under the
documented thresholds. -/
theorem score_tell_me_about_contract_good :
    score_question_quality "Tell me about the contract".toList
      = { score := mkRat 7 10, quality := "good".toList,
          suggestions := ["Be more specific about what you want to know".toList],
          issues := ["Question is too vague".toList] } := by decide

/-! ## Claim C10 -/

/-- A fresh `ConversationContext` with the source's default capacities. -/
def ctx0 : ConversationContext := mkConversationContext 10 4000

/-- C10 counterexample: a user `add_message` call whose content has only
two whitespace-separated tokens appends no topic at all (the source only
tracks a topic when `len(words) > 3`), contradicting the claim that a
topic is appended for every user call. -/
theorem track_topic_short_content_no_append :
    (add_message ctx0 "user".toList "hi there".toList none 0).topic_tracking = []
    ∧ ([] : List Topic) ≠ [{ topic := "hi there".toList, timestamp := 0 }] := by
  constructor
  · decide
  · decide

theorem trimIf_eq_lastN (n : Nat) (l : List α) :
    (if n < l.length then lastN n l else l) = lastN n l := by
  split
  · rfl
  · next h => rw [lastN, Nat.sub_eq_zero_of_le (Nat.le_of_not_lt h), List.drop_zero]

/-- C10 amended: on a user `add_message` call, a topic consisting of the
first five whitespace-separated tokens of the lower-cased content is
appended (and the topic list trimmed to its last 20 entries) exactly
when the content has more than three whitespace-separated tokens;
otherwise the topic list is left unchanged. -/
theorem add_message_user_topic_tracking (ctx : ConversationContext)
    (role content : List Char) (md : Option MetaDict) (now : Nat)
    (hrole : role = "user".toList) :
    (3 < (splitWs (lowerStr content)).length →
      (add_message ctx role content md now).topic_tracking
        = lastN 20 (ctx.topic_tracking
            ++ [{ topic := joinSpace ((splitWs (lowerStr content)).take 5),
                  timestamp := now }]))
    ∧ ((splitWs (lowerStr content)).length ≤ 3 →
      (add_message ctx role content md now).topic_tracking = ctx.topic_tracking) := by
  subst hrole
  have htt : (add_message ctx "user".toList content md now).topic_tracking
      = trackTopic ctx.topic_tracking content now := by
    simp only [add_message]
    split
    · rfl
    · next hne => exact absurd trivial hne
  constructor
  · intro h
    rw [htt]
    simp only [trackTopic]
    rw [if_pos h]
    exact trimIf_eq_lastN 20 _
  · intro h
    rw [htt]
    simp only [trackTopic]
    rw [if_neg (by omega : ¬3 < (splitWs (lowerStr content)).length)]

/-- Witness for `add_message_user_topic_tracking`: a concrete four-word
user message gets its (whole, lower-cased) content recorded as a topic. -/
theorem add_message_user_topic_tracking_witness :
    (add_message ctx0 "user".toList "alpha beta gamma delta".toList none 5).topic_tracking
      = [{ topic := "alpha beta gamma delta".toList, timestamp := 5 }] :=
  ((add_message_user_topic_tracking ctx0 "user".toList
      "alpha beta gamma delta".toList none 5 rfl).1 (by decide)).trans (by decide)

/-! ## CitationEngine.extract_citations
(src/utils/citation_engine.py, lines 41-124) -/

/-- Case-insensitive ASCII prefix test (the field regexes carry
`re.IGNORECASE`). -/
def leadsWithCI (pat l : List Char) : Bool :=
  leadsWith (lowerStr pat) (lowerStr l)

/-- `re.search` semantics for `\*\*LABEL\*\*\s*(.+?)(?=MARKER|$)` with
`re.DOTALL | re.IGNORECASE` (the Answer and Source fields): find the first
occurrence of the label; `\s*` greedily eats whitespace; the lazy group
then captures up to the first later occurrence of the marker, or to the
end of the string; `.strip()` is applied to the capture.  When the
remainder after the label is empty the pattern cannot match (`.+?` needs
one character); when it is all whitespace the engine backtracks `\s*` by
one character, and the subsequent `.strip()` erases it. -/
def extractBlockField (text label marker : List Char) : Option (List Char) :=
  match (List.range (text.length + 1)).find?
      (fun i => leadsWithCI label (text.drop i)) with
  | none => none
  | some i =>
    let rest := text.drop (i + label.length)
    if rest.isEmpty then none
    else
      let w := (rest.takeWhile isSpace).length
      if w = rest.length then some []
      else
        let q := ((List.range' (w + 1) (rest.length - w)).find?
            (fun p => leadsWithCI marker (rest.drop p))).getD rest.length
        some (stripStr ((rest.drop w).take (q - w)))

/-- `re.search` semantics for `\*\*LABEL\*\*\s*(\w+)` (the Confidence
field) and for `\*\*LABEL\*\*\s*(\w+(?:_\w+)?)` (the Classification
field — since `_` is itself a word character, the greedy `\w+` already
captures the whole run and the optional group adds nothing): the first
label occurrence followed (after whitespace) by at least one word
character matches; the capture is the maximal word-character run. -/
def extractWordField (text label : List Char) : Option (List Char) :=
  ((List.range (text.length + 1)).find? (fun i =>
      leadsWithCI label (text.drop i) &&
      !(((text.drop (i + label.length)).dropWhile isSpace).takeWhile isWordChar).isEmpty))
    |>.map (fun i =>
      ((text.drop (i + label.length)).dropWhile isSpace).takeWhile isWordChar)

/-- The character class `["\']` of the Quote regex. -/
def isQuoteChar (c : Char) : Bool := c = '"' || c = Char.ofNat 39

/-- Attempt of `["\'](.+?)["\']` at the position right after `\s*`: an
opening quote character, a lazy non-empty capture, and the next quote
character at least one position later. -/
def quoteCapture (a : List Char) : Option (List Char) :=
  match a with
  | c :: t =>
    if isQuoteChar c then
      match (List.range' 1 (t.length - 1)).find?
          (fun q => isQuoteChar (t.getD q ' ')) with
      | some q => some (stripStr (t.take q))
      | none => none
    else none
  | [] => none

/-- `re.search` semantics for `\*\*Quote:\*\*\s*["\'](.+?)["\']` with
`re.DOTALL | re.IGNORECASE`. -/
def extractQuoteField (text label : List Char) : Option (List Char) :=
  ((List.range (text.length + 1)).find? (fun i =>
      leadsWithCI label (text.drop i) &&
      (quoteCapture ((text.drop (i + label.length)).dropWhile isSpace)).isSome))
    |>.map (fun i =>
      (quoteCapture ((text.drop (i + label.length)).dropWhile isSpace)).getD [])

/-- The character class `[\d,\s-]` of the page-range patterns. -/
def inPageClass (c : Char) : Bool := isDigit c || c = ',' || isSpace c || c = '-'

/-- Python `int(s)` on a string drawn from the class `[\d,\s]` (no sign,
no underscore can occur after splitting on `-`): strip, then a non-empty
all-digit string parses, anything else raises `ValueError`. -/
def pyIntParse (s : List Char) : Option Nat :=
  let t := stripStr s
  if t.isEmpty || !(t.all (fun c => isDigit c)) then none
  else some (t.foldl (fun acc c => acc * 10 + (c.toNat - 48)) 0)

/-- Python `s.isdigit()` (ASCII fragment). -/
def pyIsDigit (s : List Char) : Bool := !s.isEmpty && s.all (fun c => isDigit c)

/-- Python `s.split(sep)` for a one-character separator. -/
def splitOnChar (sep : Char) : List Char → List (List Char)
  | [] => [[]]
  | c :: t =>
    if c = sep then [] :: splitOnChar sep t
    else
      match splitOnChar sep t with
      | h :: r => (c :: h) :: r
      | [] => [[c]]

/-- One match attempt of `[Pp]age\s+(\d+)` at the head of `l`; returns
the captured digits and the remainder after the whole match. -/
def matchPage1 (l : List Char) : Option (List Char × List Char) :=
  match l with
  | c :: t =>
    if (c = 'P' || c = 'p') && leadsWith "age".toList t then
      let after := t.drop 3
      let ws := after.takeWhile isSpace
      if ws.isEmpty then none
      else
        let after2 := after.drop ws.length
        let d := after2.takeWhile isDigit
        if d.isEmpty then none else some (d, after2.drop d.length)
    else none
  | [] => none

/-- One match attempt of `[Pp]ages\s+([\d,\s-]+)` at the head of `l`.
When the greedy `\s+` leaves no class character, the engine backtracks
one whitespace character (itself in the class), so a match of exactly
that character results whenever at least two whitespace characters were
available. -/
def matchPage2 (l : List Char) : Option (List Char × List Char) :=
  match l with
  | c :: t =>
    if (c = 'P' || c = 'p') && leadsWith "ages".toList t then
      let after := t.drop 4
      let ws := after.takeWhile isSpace
      if ws.isEmpty then none
      else
        let after2 := after.drop ws.length
        let run := after2.takeWhile inPageClass
        if !run.isEmpty then some (run, after2.drop run.length)
        else if 2 ≤ ws.length then some ([ws.getLastD ' '], after2)
        else none
    else none
  | [] => none

/-- One match attempt of `p\.?\s*(\d+)` at the head of `l` (no
backtracking subtlety: `\s` and `\d` are disjoint). -/
def matchPage3 (l : List Char) : Option (List Char × List Char) :=
  match l with
  | c :: t =>
    if c = 'p' then
      let t1 := match t with
        | '.' :: r => r
        | _ => t
      let after := t1.dropWhile isSpace
      let d := after.takeWhile isDigit
      if d.isEmpty then none else some (d, after.drop d.length)
    else none
  | [] => none

/-- One match attempt of `pp\.?\s*([\d,\s-]+)` at the head of `l`; the
`\s*` backtracking mirror of `matchPage2`. -/
def matchPage4 (l : List Char) : Option (List Char × List Char) :=
  match l with
  | c :: t =>
    if c = 'p' && leadsWith "p".toList t then
      let t0 := t.drop 1
      let t1 := match t0 with
        | '.' :: r => r
        | _ => t0
      let ws := t1.takeWhile isSpace
      let after2 := t1.drop ws.length
      let run := after2.takeWhile inPageClass
      if !run.isEmpty then some (run, after2.drop run.length)
      else if 1 ≤ ws.length then some ([ws.getLastD ' '], after2)
      else none
    else none
  | [] => none

/-- `re.findall` scan: non-overlapping matches left to right, advancing
one position on failure and to the match end on success. The fuel is the
text length, enough since every step consumes at least one character. -/
def scanMatches (attempt : List Char → Option (List Char × List Char)) :
    Nat → List Char → List (List Char)
  | 0, _ => []
  | fuel + 1, l =>
    match l with
    | [] => []
    | _ :: t =>
      match attempt l with
      | some (grp, rest) => grp :: scanMatches attempt fuel rest
      | none => scanMatches attempt fuel t

/-- All captured match strings of the four page patterns, in the
source's pattern order. -/
def pageMatchStrings (source : List Char) : List (List Char) :=
  scanMatches matchPage1 source.length source
    ++ scanMatches matchPage2 source.length source
    ++ scanMatches matchPage3 source.length source
    ++ scanMatches matchPage4 source.length source

/-- Processing of one captured match string: hyphen ranges (which raise
`ValueError` on malformed input: a split with other than two parts, or a
part that is not a pure integer), comma lists (guarded by `isdigit`),
and single pages. -/
def processPageMatch (m : List Char) : Except (List Char) (List Nat) :=
  if m.contains '-' then
    match splitOnChar '-' m with
    | [a, b] =>
      match pyIntParse a, pyIntParse b with
      | some sa, some sb => .ok (List.range' sa (sb + 1 - sa))
      | _, _ => .error "ValueError: invalid literal for int".toList
    | _ => .error "ValueError: range unpack".toList
  else if m.contains ',' then
    .ok ((splitOnChar ',' m).filterMap (fun p =>
      if pyIsDigit (stripStr p) then pyIntParse p else none))
  else if pyIsDigit m then
    .ok ((pyIntParse m).getD 0 :: [])
  else .ok []

/-- Python `sorted(list(set(l)))`: deduplicate, then sort ascending. -/
def insertSorted (n : Nat) : List Nat → List Nat
  | [] => [n]
  | m :: t => if n ≤ m then n :: m :: t else m :: insertSorted n t

/-- Ascending insertion sort. -/
def sortNats (l : List Nat) : List Nat := l.foldr insertSorted []

/-- Deduplication keeping first occurrences. -/
def dedupFirst (l : List Nat) : List Nat :=
  l.foldl (fun acc n => if acc.contains n then acc else acc ++ [n]) []

/-- `CitationEngine._extract_page_numbers`: runs the four patterns,
processes every captured match, then `sorted(list(set(...)))`. A
`ValueError` escapes as `.error`. -/
def extractPageNumbers (source : List Char) : Except (List Char) (List Nat) := do
  let nested ← (pageMatchStrings source).mapM processPageMatch
  .ok (sortNats (dedupFirst nested.flatten))

/-- The citation record returned by `extract_citations`. -/
structure Citation where
  answer : List Char
  source : List Char
  confidence : List Char
  quote : List Char
  classification : List Char
  page_numbers : List Nat
  has_citation : Bool
deriving DecidableEq

/-- `CitationEngine.extract_citations`: parses the five fields with safe
defaults for any missing field, then parses page numbers out of the
Source field (which can raise `ValueError` — surfaced as `.error`). -/
def extract_citations (response : List Char) : Except (List Char) Citation := do
  let answer := (extractBlockField response "**answer:**".toList
    "**source:".toList).getD response
  let sourceOpt := extractBlockField response "**source:**".toList
    "**confidence:".toList
  let source := sourceOpt.getD "Not specified".toList
  let confidence := (extractWordField response "**confidence:**".toList).getD
    "Unknown".toList
  let quote := (extractQuoteField response "**quote:**".toList).getD []
  let classification := ((extractWordField response
    "**classification:**".toList).map upperStr).getD "UNKNOWN".toList
  let pages ← extractPageNumbers source
  .ok { answer := answer, source := source, confidence := confidence,
        quote := quote, classification := classification,
        page_numbers := pages, has_citation := sourceOpt.isSome }

/-- C3: the claim that `extract_citations` never raises fails on the
code. On the input `**Source:** Pages 3-` the `[Pp]ages` pattern
captures `3-`, the hyphen branch splits it into `3` and the empty
string, and `int('')` raises `ValueError`; the defensive `isdigit`
guard present in the comma branch is missing in the hyphen branch.
This theorem evaluates the embedded code at that failing input. On
inputs whose fields are merely missing the defaults are returned, as
the second conjunct shows for the empty response. -/
theorem extract_citations_pages_dash_raises :
    extract_citations "**Source:** Pages 3-".toList
        = .error "ValueError: invalid literal for int".toList
    ∧ extract_citations [] = .ok
        { answer := [], source := "Not specified".toList,
          confidence := "Unknown".toList, quote := [],
          classification := "UNKNOWN".toList, page_numbers := [],
          has_citation := false } := ⟨rfl, rfl⟩

/-! ## difflib.SequenceMatcher (used by `_fuzzy_match_quote`)

`SequenceMatcher(None, a, b)` over the characters of two strings, as in
CPython's difflib: the `b2j` index drops "popular" characters when
`len(b) >= 200` (autojunk), `find_longest_match` runs the row dynamic
program and then the two non-junk extension loops (the junk extension
loops are vacuous here because `isjunk=None` gives an empty junk set),
and `ratio()` is `2*M/T` where `M` sums the sizes of all matching
blocks found by the recursive subdivision (the final merge step of
`get_matching_blocks` never changes the sum). -/

/-- Indices of `c` in `b`, in increasing order (one `b2j` entry). -/
def positionsOf (b : List Char) (c : Char) : List Nat :=
  (List.range b.length).filter (fun j => b.getD j (Char.ofNat 0) = c)

/-- Generic first-occurrence deduplication. -/
def dedupChars (l : List Char) : List Char :=
  l.foldl (fun acc c => if acc.contains c then acc else acc ++ [c]) []

/-- The autojunk "popular" characters of `b`: present only when
`len(b) >= 200`, those with more than `len(b) // 100 + 1` occurrences. -/
def popularChars (b : List Char) : List Char :=
  if b.length < 200 then []
  else (dedupChars b).filter (fun c => b.length / 100 + 1 < b.count c)

/-- `b2j` lookup: positions of `c` in `b`, empty for popular characters
(they are deleted from `b2j` by `__chain_b`). -/
def b2jGet (b : List Char) (c : Char) : List Nat :=
  if (popularChars b).contains c then [] else positionsOf b c

/-- Lookup in the `j2len` row dictionary with default 0. -/
def lookupD (l : List (Nat × Nat)) (k : Nat) : Nat :=
  (((l.find? (fun p => p.1 = k)).map Prod.snd)).getD 0

/-- State of the `find_longest_match` dynamic program. -/
structure FlmState where
  j2len : List (Nat × Nat)
  besti : Nat
  bestj : Nat
  bestsize : Nat

/-- The row dynamic program of `find_longest_match`. -/
def flmDP (a b : List Char) (alo ahi blo bhi : Nat) : Nat × Nat × Nat :=
  let step := fun (st : FlmState) (i : Nat) =>
    let js := (b2jGet b (a.getD i (Char.ofNat 0))).filter
      (fun j => blo ≤ j && j < bhi)
    let inner := js.foldl (fun (st2 : FlmState) (j : Nat) =>
      let k := (if j = 0 then 0 else lookupD st.j2len (j - 1)) + 1
      let nj := (j, k) :: st2.j2len
      if st2.bestsize < k then
        { j2len := nj, besti := i + 1 - k, bestj := j + 1 - k, bestsize := k }
      else { st2 with j2len := nj })
      { j2len := [], besti := st.besti, bestj := st.bestj,
        bestsize := st.bestsize }
    inner
  let r := (List.range' alo (ahi - alo)).foldl step
    { j2len := [], besti := alo, bestj := blo, bestsize := 0 }
  (r.besti, r.bestj, r.bestsize)

/-- The left extension loop of `find_longest_match` (non-junk variant;
the junk set is empty for `isjunk=None`). Fuel: `besti` itself. -/
def extendLeft (a b : List Char) (alo blo : Nat) :
    Nat → Nat × Nat × Nat → Nat × Nat × Nat
  | 0, st => st
  | fuel + 1, (bi, bj, bs) =>
    if alo < bi && blo < bj &&
        a.getD (bi - 1) (Char.ofNat 0) = b.getD (bj - 1) (Char.ofNat 1) then
      extendLeft a b alo blo fuel (bi - 1, bj - 1, bs + 1)
    else (bi, bj, bs)

/-- The right extension loop of `find_longest_match`. Fuel: `ahi`. -/
def extendRightSize (a b : List Char) (ahi bhi bi bj : Nat) :
    Nat → Nat → Nat
  | 0, bs => bs
  | fuel + 1, bs =>
    if bi + bs < ahi && bj + bs < bhi &&
        a.getD (bi + bs) (Char.ofNat 0) = b.getD (bj + bs) (Char.ofNat 1) then
      extendRightSize a b ahi bhi bi bj fuel (bs + 1)
    else bs

/-- `SequenceMatcher.find_longest_match` on the rectangle
`[alo, ahi) x [blo, bhi)`. -/
def find_longest_match (a b : List Char) (alo ahi blo bhi : Nat) :
    Nat × Nat × Nat :=
  let (bi, bj, bs) := flmDP a b alo ahi blo bhi
  let (bi, bj, bs) := extendLeft a b alo blo bi (bi, bj, bs)
  let bs := extendRightSize a b ahi bhi bi bj ahi bs
  (bi, bj, bs)

/-- Total size of all matching blocks: the queue-driven subdivision of
`get_matching_blocks`, summing the sizes (the merge step of the source
preserves this sum). The fuel `
len(a) + len(b) + 1` bounds the number of rectangles ever processed:
each block found consumes at least one position of the match budget
`min(len(a), len(b))` and pushes at most two subrectangles. -/
def matchTotalAux (a b : List Char) :
    Nat → List (Nat × Nat × Nat × Nat) → Nat
  | 0, _ => 0
  | _ + 1, [] => 0
  | fuel + 1, (alo, ahi, blo, bhi) :: queue =>
    let (i, j, k) := find_longest_match a b alo ahi blo bhi
    if k = 0 then matchTotalAux a b fuel queue
    else
      let queue := if alo < i && blo < j then (alo, i, blo, j) :: queue else queue
      let queue := if i + k < ahi && j + k < bhi then
        (i + k, ahi, j + k, bhi) :: queue else queue
      k + matchTotalAux a b fuel queue

/-- Sum of matching block sizes over the whole strings. -/
def matchTotal (a b : List Char) : Nat :=
  matchTotalAux a b (a.length + b.length + 1) [(0, a.length, 0, b.length)]

/-- `SequenceMatcher.ratio()`: `2*M/T`, and 1.0 when both strings are
empty (`_calculate_ratio`). -/
def similarityScore (a b : List Char) : Rat :=
  if a.length + b.length = 0 then 1
  else mkRat (2 * matchTotal a b) (a.length + b.length)

/-- `CitationEngine._fuzzy_match_quote`: slides a window of the quote's
word count across the tokenized text and accepts on a similarity of at
least the threshold (default 0.85). An empty Python `range` (quote
longer than the text in words) yields `False`. -/
def fuzzy_match_quote (quote text : List Char) (threshold : Rat) : Bool :=
  let quote_lower := lowerStr quote
  let text_lower := lowerStr text
  let text_words := splitWs text_lower
  let quote_words := splitWs quote_lower
  (List.range (text_words.length + 1 - quote_words.length)).any (fun i =>
    let window := joinSpace ((text_words.drop i).take quote_words.length)
    threshold ≤ similarityScore quote_lower window)

/-! ## CitationEngine.verify_citation
(src/utils/citation_engine.py, lines 126-185) -/

/-- The result dict of `verify_citation`. -/
structure VerificationResult where
  verified : Bool
  confidence_score : Rat
  issues : List (List Char)
  verification_status : List Char
deriving DecidableEq

/-- Decimal digits of a natural number (for the f-string
`f"Page {page_num} does not exist in document"`). -/
def natDigitsAux : Nat → Nat → List Char
  | 0, _ => []
  | fuel + 1, n =>
    if n < 10 then [Char.ofNat (48 + n)]
    else natDigitsAux fuel (n / 10) ++ [Char.ofNat (48 + n % 10)]

/-- Decimal rendering of a natural number. -/
def natToStr (n : Nat) : List Char := natDigitsAux (n + 1) n

/-- The page-missing issue message. -/
def pageIssue (n : Nat) : List Char :=
  "Page ".toList ++ natToStr n ++ " does not exist in document".toList

/-- Python truthiness of the optional `page_texts` dict (`None` and the
empty dict are falsy). -/
def pageTruthy : Option (List (Nat × List Char)) → Bool
  | none => false
  | some m => !m.isEmpty

/-- The quote-existence check of `verify_citation` (exact
case-insensitive substring, then the fuzzy fallback; on failure record
an issue and subtract 0.5). -/
def quoteCheck (citation : Citation) (pdf_text : List Char)
    (st : List (List Char) × Rat) : List (List Char) × Rat :=
  if !citation.quote.isEmpty then
    let quote_found := containsSub (lowerStr pdf_text) (lowerStr citation.quote)
    let quote_found :=
      if !quote_found then fuzzy_match_quote citation.quote pdf_text (mkRat 85 100)
      else quote_found
    if !quote_found then
      (st.1 ++ ["Quoted text not found in document".toList],
       pySub st.2 (mkRat 5 10))
    else st
  else st

/-- The page-existence check of `verify_citation` (0.2 deduction and an
issue per referenced page absent from the supplied page dict). -/
def pageCheck (citation : Citation)
    (page_texts : Option (List (Nat × List Char)))
    (st : List (List Char) × Rat) : List (List Char) × Rat :=
  if !citation.page_numbers.isEmpty && pageTruthy page_texts then
    citation.page_numbers.foldl (fun st2 page_num =>
      if (((page_texts.getD []).find? (fun p => p.1 = page_num))).isNone then
        (st2.1 ++ [pageIssue page_num], pySub st2.2 (mkRat 2 10))
      else st2) st
  else st

/-- The classification consistency check of `verify_citation`
(DIRECT_QUOTE without a quote: 0.3 deduction). -/
def classCheck (citation : Citation)
    (st : List (List Char) × Rat) : List (List Char) × Rat :=
  if citation.classification = "DIRECT_QUOTE".toList && citation.quote.isEmpty then
    (st.1 ++ ["Classified as direct quote but no quote provided".toList],
     pySub st.2 (mkRat 3 10))
  else st

/-- The fixed threshold mapping from a confidence score to a
verification status. -/
def statusOfScore (s : Rat) : List Char :=
  if mkRat 9 10 ≤ s then "VERIFIED".toList
  else if mkRat 7 10 ≤ s then "LIKELY_ACCURATE".toList
  else if mkRat 5 10 ≤ s then "NEEDS_REVIEW".toList
  else "QUESTIONABLE".toList

/-- `CitationEngine.verify_citation`: starts the confidence score at
1.0, runs the three checks in order, maps the (pre-clamp) score to a
status by the fixed thresholds, sets `verified` iff the score is at
least 0.7, and returns the score clamped below at 0. -/
def verify_citation (citation : Citation) (pdf_text : List Char)
    (page_texts : Option (List (Nat × List Char))) : VerificationResult :=
  let st := classCheck citation
    (pageCheck citation page_texts (quoteCheck citation pdf_text ([], 1)))
  { verified := decide (mkRat 7 10 ≤ st.2),
    confidence_score := ratMax 0 st.2,
    issues := st.1,
    verification_status := statusOfScore st.2 }

/-! ## Claim C4 -/

theorem pySub_eq (a b : Rat) : pySub a b = a - b := by
  have ha : ((a.den : Rat)) ≠ 0 := by exact_mod_cast a.den_nz
  have hb : ((b.den : Rat)) ≠ 0 := by exact_mod_cast b.den_nz
  rw [pySub, Rat.mkRat_eq_div]
  conv_rhs => rw [← Rat.num_div_den a, ← Rat.num_div_den b]
  rw [div_sub_div _ _ ha hb]
  push_cast
  ring_nf

theorem pyAdd_eq (a b : Rat) : pyAdd a b = a + b := by
  have ha : ((a.den : Rat)) ≠ 0 := by exact_mod_cast a.den_nz
  have hb : ((b.den : Rat)) ≠ 0 := by exact_mod_cast b.den_nz
  rw [pyAdd, Rat.mkRat_eq_div]
  conv_rhs => rw [← Rat.num_div_den a, ← Rat.num_div_den b]
  rw [div_add_div _ _ ha hb]
  push_cast
  ring_nf

theorem pySub_le (a b : Rat) (hb : 0 ≤ b) : pySub a b ≤ a := by
  rw [pySub_eq]; linarith

theorem statusOf_clamp (cs : Rat) :
    statusOfScore (ratMax 0 cs) = statusOfScore cs := by
  rw [ratMax]
  split
  · rfl
  · next h =>
    have hcs : cs < 0 := lt_of_not_le h
    have h9 : ¬ mkRat 9 10 ≤ cs :=
      fun hle => absurd (lt_of_le_of_lt hle hcs) (by decide)
    have h7 : ¬ mkRat 7 10 ≤ cs :=
      fun hle => absurd (lt_of_le_of_lt hle hcs) (by decide)
    have h5 : ¬ mkRat 5 10 ≤ cs :=
      fun hle => absurd (lt_of_le_of_lt hle hcs) (by decide)
    have hr : statusOfScore cs = "QUESTIONABLE".toList := by
      rw [statusOfScore, if_neg h9, if_neg h7, if_neg h5]
    rw [hr]
    decide

theorem clamp_le_iff (cs : Rat) :
    mkRat 7 10 ≤ ratMax 0 cs ↔ mkRat 7 10 ≤ cs := by
  rw [ratMax]
  split
  · exact Iff.rfl
  · next h =>
    exact iff_of_false (by decide)
      (fun hle => h (le_trans (by decide : (0:Rat) ≤ mkRat 7 10) hle))

theorem ratMax_le_of (cs t : Rat) (h1 : cs ≤ t) (h0 : 0 ≤ t) :
    ratMax 0 cs ≤ t := by
  rw [ratMax]
  split
  · exact h1
  · exact h0

theorem pageFold_le (pt : Option (List (Nat × List Char))) (l : List Nat) :
    ∀ st : List (List Char) × Rat,
    (l.foldl (fun st2 page_num =>
      if ((((pt.getD [])).find? (fun p => p.1 = page_num))).isNone then
        (st2.1 ++ [pageIssue page_num], pySub st2.2 (mkRat 2 10))
      else st2) st).2 ≤ st.2 := by
  induction l with
  | nil => intro st; exact le_refl _
  | cons p t ih =>
    intro st
    rw [List.foldl_cons]
    refine le_trans (ih _) ?_
    split
    · exact pySub_le _ _ (by decide)
    · exact le_refl _

theorem pageCheck_le (c : Citation) (pt : Option (List (Nat × List Char)))
    (st : List (List Char) × Rat) : (pageCheck c pt st).2 ≤ st.2 := by
  rw [pageCheck]
  split
  · exact pageFold_le pt c.page_numbers st
  · exact le_refl _

theorem classCheck_le (c : Citation) (st : List (List Char) × Rat) :
    (classCheck c st).2 ≤ st.2 := by
  rw [classCheck]
  split
  · exact pySub_le _ _ (by decide)
  · exact le_refl _

theorem pageFold_noop (pt : Option (List (Nat × List Char))) (l : List Nat) :
    ∀ st : List (List Char) × Rat,
    (∀ p ∈ l, ((((pt.getD [])).find? (fun q => q.1 = p))).isSome) →
    l.foldl (fun st2 page_num =>
      if ((((pt.getD [])).find? (fun p => p.1 = page_num))).isNone then
        (st2.1 ++ [pageIssue page_num], pySub st2.2 (mkRat 2 10))
      else st2) st = st := by
  induction l with
  | nil => intro st _; rfl
  | cons p t ih =>
    intro st h
    rw [List.foldl_cons]
    rcases ho : ((pt.getD [])).find? (fun q => q.1 = p) with _ | v
    · exact absurd (ho ▸ h p (List.mem_cons_self p t)) (by simp)
    · rw [if_neg (by rw [ho]; simp)]
      exact ih st (fun q hq => h q (List.mem_cons_of_mem p hq))

theorem pageCheck_noop (c : Citation) (pt : Option (List (Nat × List Char)))
    (st : List (List Char) × Rat)
    (h : ∀ p ∈ c.page_numbers, ((((pt.getD [])).find? (fun q => q.1 = p))).isSome) :
    pageCheck c pt st = st := by
  rw [pageCheck]
  split
  · exact pageFold_noop pt c.page_numbers st h
  · rfl

/-- C4: `verify_citation` maps its final confidence score to a status by
the fixed thresholds (≥0.9 VERIFIED, ≥0.7 LIKELY_ACCURATE, ≥0.5
NEEDS_REVIEW, else QUESTIONABLE) and sets `verified` iff the score is
≥ 0.7; a citation whose quote is a verbatim case-insensitive substring
of the source text, with no page-number deduction possible, yields
status VERIFIED with confidence ≥ 0.9; a citation whose quote is absent
and not fuzzy-matchable yields confidence ≤ 0.5. -/
theorem verify_citation_spec (c : Citation) (pdf_text : List Char)
    (page_texts : Option (List (Nat × List Char))) :
    ((verify_citation c pdf_text page_texts).verification_status
        = statusOfScore (verify_citation c pdf_text page_texts).confidence_score
      ∧ ((verify_citation c pdf_text page_texts).verified = true
        ↔ mkRat 7 10 ≤ (verify_citation c pdf_text page_texts).confidence_score))
    ∧ (c.quote ≠ [] →
       containsSub (lowerStr pdf_text) (lowerStr c.quote) = true →
       (∀ p ∈ c.page_numbers,
         ((((page_texts.getD [])).find? (fun q => q.1 = p))).isSome) →
       (verify_citation c pdf_text page_texts).verification_status
           = "VERIFIED".toList
         ∧ mkRat 9 10 ≤ (verify_citation c pdf_text page_texts).confidence_score)
    ∧ (c.quote ≠ [] →
       containsSub (lowerStr pdf_text) (lowerStr c.quote) = false →
       fuzzy_match_quote c.quote pdf_text (mkRat 85 100) = false →
       (verify_citation c pdf_text page_texts).confidence_score ≤ mkRat 5 10) := by
  refine ⟨⟨?_, ?_⟩, ?_, ?_⟩
  · rw [verify_citation]
    exact (statusOf_clamp _).symm
  · rw [verify_citation]
    simp only [decide_eq_true_eq]
    exact (clamp_le_iff _).symm
  · intro hq hfound hpages
    have hne : c.quote.isEmpty = false := by
      cases hcq : c.quote with
      | nil => exact absurd hcq hq
      | cons a t => rfl
    have h1 : quoteCheck c pdf_text ([], 1) = ([], 1) := by
      rw [quoteCheck, hne]
      simp [hfound]
    have h2 : pageCheck c page_texts ([], 1) = ([], 1) :=
      pageCheck_noop c page_texts ([], 1) hpages
    have h3 : classCheck c ([], 1) = ([], 1) := by
      rw [classCheck, hne]
      simp
    rw [verify_citation, h1, h2, h3]
    exact ⟨by decide, by decide⟩
  · intro hq hfound hfuzzy
    have hne : c.quote.isEmpty = false := by
      cases hcq : c.quote with
      | nil => exact absurd hcq hq
      | cons a t => rfl
    have h1 : quoteCheck c pdf_text ([], 1)
        = (["Quoted text not found in document".toList],
           pySub 1 (mkRat 5 10)) := by
      rw [quoteCheck, hne]
      simp [hfound, hfuzzy]
    have hlev : (classCheck c (pageCheck c page_texts
        (quoteCheck c pdf_text ([], 1)))).2 ≤ mkRat 5 10 := by
      refine le_trans (classCheck_le c _) (le_trans (pageCheck_le c _ _) ?_)
      rw [h1]
      exact le_of_eq (by decide)
    rw [verify_citation]
    exact ratMax_le_of _ _ hlev (by decide)

/-- A concrete citation whose quote appears verbatim in the text. -/
def citFound : Citation :=
  { answer := "ans".toList, source := "Not specified".toList,
    confidence := "High".toList, quote := "Hello World".toList,
    classification := "DIRECT_QUOTE".toList, page_numbers := [],
    has_citation := true }

/-- A concrete citation whose quote is absent and too long (in words)
for any fuzzy window. -/
def citAbsent : Citation :=
  { answer := "ans".toList, source := "Not specified".toList,
    confidence := "High".toList, quote := "zz yy xx ww".toList,
    classification := "PARAPHRASE".toList, page_numbers := [],
    has_citation := true }

/-- Witness for `verify_citation_spec`: a verbatim quote verifies at
score 1.0, and an unmatched quote scores at most 0.5. -/
theorem verify_citation_spec_witness :
    ((verify_citation citFound "say hello world now".toList none).verification_status
        = "VERIFIED".toList
      ∧ mkRat 9 10 ≤ (verify_citation citFound "say hello world now".toList
          none).confidence_score)
    ∧ (verify_citation citAbsent "hello".toList none).confidence_score
        ≤ mkRat 5 10 :=
  ⟨(verify_citation_spec citFound "say hello world now".toList none).2.1
      (by decide) (by decide)
      (fun p hp => absurd hp (List.not_mem_nil p)),
   (verify_citation_spec citAbsent "hello".toList none).2.2
      (by decide) (by decide) (by decide)⟩

/-! ## UTF-8 and MD5 (hashlib.md5, used by `ChatManager._get_cache_key`) -/

/-- UTF-8 encoding of one unicode scalar value (Python
`str.encode('utf-8')`), written with quotient/remainder arithmetic. -/
def utf8EncodeChar (c : Char) : List Nat :=
  let v := c.toNat
  if v < 128 then [v]
  else if v < 2048 then [192 + v / 64, 128 + v % 64]
  else if v < 65536 then [224 + v / 4096, 128 + v / 64 % 64, 128 + v % 64]
  else [240 + v / 262144, 128 + v / 4096 % 64, 128 + v / 64 % 64, 128 + v % 64]

/-- UTF-8 encoding of a string as a byte list. -/
def utf8Encode (s : List Char) : List Nat :=
  s.foldr (fun c acc => utf8EncodeChar c ++ acc) []

/-- Truncation to 32 bits. -/
def w32 (n : Nat) : Nat := n % 4294967296

/-- 32-bit left rotation (the two parts occupy disjoint bit ranges). -/
def rotl32 (x s : Nat) : Nat := w32 (x * 2 ^ s) + x / 2 ^ (32 - s)

/-- 32-bit complement. -/
def not32 (x : Nat) : Nat := 4294967295 ^^^ x

/-- A 32-bit word from four little-endian bytes. -/
def le32OfBytes (b0 b1 b2 b3 : Nat) : Nat :=
  b0 + 256 * b1 + 65536 * b2 + 16777216 * b3

/-- The eight little-endian bytes of a 64-bit value. -/
def le64Bytes (n : Nat) : List Nat :=
  (List.range 8).map (fun i => n / 2 ^ (8 * i) % 256)

/-- The four little-endian bytes of a 32-bit value. -/
def le32Bytes (n : Nat) : List Nat :=
  (List.range 4).map (fun i => n / 2 ^ (8 * i) % 256)

/-- MD5 padding: a 0x80 byte, zeros to 56 mod 64, then the bit length
as a 64-bit little-endian value. -/
def md5Pad (msg : List Nat) : List Nat :=
  let padlen := (120 - (msg.length + 1) % 64) % 64
  msg ++ [128] ++ List.replicate padlen 0 ++ le64Bytes (8 * msg.length)

/-- Split into chunks of `n` (the input length is a multiple of `n`
when used; the fuel is the number of chunks). -/
def chunksOf (n : Nat) : Nat → List Nat → List (List Nat)
  | 0, _ => []
  | _ + 1, [] => []
  | fuel + 1, l => l.take n :: chunksOf n fuel (l.drop n)

/-- The 16 little-endian message words of one 64-byte MD5 block. -/
def md5Words (block : List Nat) : List Nat :=
  (List.range 16).map (fun i =>
    le32OfBytes (block.getD (4 * i) 0) (block.getD (4 * i + 1) 0)
      (block.getD (4 * i + 2) 0) (block.getD (4 * i + 3) 0))

/-- The MD5 sine-derived constant table
(`K[i] = floor(abs(sin(i+1)) * 2^32)`). -/
def md5K : List Nat :=
  [3614090360, 3905402710, 606105819, 3250441966,
   4118548399, 1200080426, 2821735955, 4249261313,
   1770035416, 2336552879, 4294925233, 2304563134,
   1804603682, 4254626195, 2792965006, 1236535329,
   4129170786, 3225465664, 643717713, 3921069994,
   3593408605, 38016083, 3634488961, 3889429448,
   568446438, 3275163606, 4107603335, 1163531501,
   2850285829, 4243563512, 1735328473, 2368359562,
   4294588738, 2272392833, 1839030562, 4259657740,
   2763975236, 1272893353, 4139469664, 3200236656,
   681279174, 3936430074, 3572445317, 76029189,
   3654602809, 3873151461, 530742520, 3299628645,
   4096336452, 1126891415, 2878612391, 4237533241,
   1700485571, 2399980690, 4293915773, 2240044497,
   1873313359, 4264355552, 2734768916, 1309151649,
   4149444226, 3174756917, 718787259, 3951481745]

/-- The MD5 per-round left-rotation amounts. -/
def md5S : List Nat :=
  [7, 12, 17, 22, 7, 12, 17, 22, 7, 12, 17, 22, 7, 12, 17, 22,
   5, 9, 14, 20, 5, 9, 14, 20, 5, 9, 14, 20, 5, 9, 14, 20,
   4, 11, 16, 23, 4, 11, 16, 23, 4, 11, 16, 23, 4, 11, 16, 23,
   6, 10, 15, 21, 6, 10, 15, 21, 6, 10, 15, 21, 6, 10, 15, 21]

/-- One MD5 round on state (a,b,c,d). -/
def md5Round (m : List Nat) (st : Nat × Nat × Nat × Nat) (i : Nat) :
    Nat × Nat × Nat × Nat :=
  let (a, b, c, d) := st
  let (f, g) :=
    if i < 16 then ((b &&& c) ||| (not32 b &&& d), i)
    else if i < 32 then ((d &&& b) ||| (not32 d &&& c), (5 * i + 1) % 16)
    else if i < 48 then (b ^^^ c ^^^ d, (3 * i + 5) % 16)
    else (c ^^^ (b ||| not32 d), (7 * i) % 16)
  let f := w32 (f + a + md5K.getD i 0 + m.getD g 0)
  (d, w32 (b + rotl32 f (md5S.getD i 7)), b, c)

/-- MD5 compression of one 64-byte block into the running state. -/
def md5Block (st : Nat × Nat × Nat × Nat) (block : List Nat) :
    Nat × Nat × Nat × Nat :=
  let m := md5Words block
  let (a, b, c, d) := (List.range 64).foldl (md5Round m) st
  let (a0, b0, c0, d0) := st
  (w32 (a0 + a), w32 (b0 + b), w32 (c0 + c), w32 (d0 + d))

/-- The 16 digest bytes of MD5 over a byte list. -/
def md5Bytes (msg : List Nat) : List Nat :=
  let padded := md5Pad msg
  let blocks := chunksOf 64 (padded.length / 64) padded
  let (a, b, c, d) := blocks.foldl md5Block
    (1732584193, 4023233417, 2562383102, 271733878)
  le32Bytes a ++ le32Bytes b ++ le32Bytes c ++ le32Bytes d

/-- A lowercase hexadecimal digit. -/
def hexDigit (n : Nat) : Char :=
  if n < 10 then Char.ofNat (48 + n) else Char.ofNat (87 + n)

/-- Lowercase hex rendering of a byte list (`hexdigest()`). -/
def bytesToHex (bs : List Nat) : List Char :=
  bs.foldr (fun b acc => hexDigit (b / 16) :: hexDigit (b % 16) :: acc) []

/-- `hashlib.md5(s.encode()).hexdigest()` on a string. -/
def md5Hex (s : List Char) : List Char := bytesToHex (md5Bytes (utf8Encode s))

/-! ## ResponseFormatter and ChatManager
(src/utils/chat_manager.py, lines 95-350) -/

/-- One attempt of `(#{1,6})\s*(.+)` at the head of `l` (no regex flag:
`.` excludes newlines, `\s` includes them). Greedy `#{1,6}` takes up to
six leading hashes; greedy `\s*` eats whitespace; `.+` then takes the
maximal non-empty newline-free run. When the whitespace runs to the end
of the string the engine backtracks `\s*` to the last whitespace
character that is not a newline (if any) and `.+` matches from there. -/
def matchHeader (l : List Char) : Option (List Char × List Char × List Char) :=
  let hashes := (l.takeWhile (fun c => c = '#')).take 6
  let after := l.drop hashes.length
  let ws := after.takeWhile isSpace
  let afterWs := after.drop ws.length
  if !afterWs.isEmpty then
    let content := afterWs.takeWhile (fun c => !(c = '\n'))
    some (hashes, content, afterWs.drop content.length)
  else
    match (List.range ws.length).reverse.find?
        (fun j => !(ws.getD j ' ' = '\n')) with
    | some j =>
      let content := (ws.drop j).takeWhile (fun c => !(c = '\n'))
      some (hashes, content, after.drop (j + content.length))
    | none => none

/-- `re.sub(r'(#{1,6})\s*(.+)', r'\1 \2\n', text)`: left-to-right
non-overlapping scan, advancing one character on failure. -/
def fmtHeadersAux : Nat → List Char → List Char
  | 0, l => l
  | fuel + 1, l =>
    match l with
    | [] => []
    | c :: t =>
      if c = '#' then
        match matchHeader (c :: t) with
        | some (hashes, content, rest) =>
          hashes ++ [' '] ++ content ++ ['\n'] ++ fmtHeadersAux fuel rest
        | none => c :: fmtHeadersAux fuel t
      else c :: fmtHeadersAux fuel t

/-- One attempt of `^\s*[-*]\s+` at a line-start position: greedy
`\s*` (newlines included), a dash or star, then at least one whitespace
character. Returns the remainder and whether the last consumed
character was a newline (so the resume position is again a line start). -/
def matchListDash (l : List Char) : Option (List Char × Bool) :=
  let ws := l.takeWhile isSpace
  match l.drop ws.length with
  | c :: t =>
    if c = '-' || c = '*' then
      let ws2 := t.takeWhile isSpace
      if ws2.isEmpty then none
      else some (t.drop ws2.length, ws2.getLastD ' ' = '\n')
    else none
  | [] => none

/-- One attempt of `^\s*\d+\.\s+` at a line-start position. -/
def matchListNum (l : List Char) : Option (List Char × Bool) :=
  let ws := l.takeWhile isSpace
  let r := l.drop ws.length
  let digits := r.takeWhile isDigit
  if digits.isEmpty then none
  else
    match r.drop digits.length with
    | '.' :: t2 =>
      let ws2 := t2.takeWhile isSpace
      if ws2.isEmpty then none
      else some (t2.drop ws2.length, ws2.getLastD ' ' = '\n')
    | _ => none

/-- `re.sub` with `re.MULTILINE` for a line-start-anchored pattern:
`atStart` tracks whether the current position starts the string or
follows a newline. -/
def fmtAnchoredAux (attempt : List Char → Option (List Char × Bool))
    (replacement : List Char) : Nat → Bool → List Char → List Char
  | 0, _, l => l
  | fuel + 1, atStart, l =>
    match l with
    | [] => []
    | c :: t =>
      if atStart then
        match attempt (c :: t) with
        | some (rest, lastNL) =>
          replacement ++ fmtAnchoredAux attempt replacement fuel lastNL rest
        | none => c :: fmtAnchoredAux attempt replacement fuel (c = '\n') t
      else c :: fmtAnchoredAux attempt replacement fuel (c = '\n') t

/-- `ResponseFormatter.format_markdown`: headers get a space and a
trailing newline, list markers are normalized to `- ` and `1. `. -/
def format_markdown (text : List Char) : List Char :=
  let text := fmtHeadersAux (text.length + 1) text
  let text := fmtAnchoredAux matchListDash "- ".toList (text.length + 1) true text
  fmtAnchoredAux matchListNum "1. ".toList (text.length + 1) true text

/-- The literal replacement of ```` ```\n ```` by ```` ```text\n ````. -/
def replaceFenceAux : Nat → List Char → List Char
  | 0, l => l
  | fuel + 1, l =>
    match l with
    | [] => []
    | c :: t =>
      if leadsWith "```\n".toList (c :: t) then
        "```text\n".toList ++ replaceFenceAux fuel ((c :: t).drop 4)
      else c :: replaceFenceAux fuel t

/-- `ResponseFormatter.format_code_blocks`: the first substitution
(`` `([^`]+)` `` replaced by `` `\1` ``) rewrites every match to
itself and is the identity on the string; the second replaces every
literal ```` ```\n ```` by ```` ```text\n ````. -/
def format_code_blocks (text : List Char) : List Char :=
  replaceFenceAux (text.length + 1) text

/-- One cached response value
(`{'formatted_response', 'raw_response', 'metadata', 'timestamp'}`). -/
structure CacheVal where
  formatted_response : List Char
  raw_response : List Char
  metadata : MetaDict
  timestamp : Nat
deriving DecidableEq

/-- An insertion-ordered Python dict write: an existing key keeps its
position, a new key is appended at the end. -/
def dictSet [DecidableEq κ] (d : List (κ × ν)) (k : κ) (v : ν) : List (κ × ν) :=
  if (d.find? (fun p => p.1 = k)).isSome then
    d.map (fun p => if p.1 = k then (k, v) else p)
  else d ++ [(k, v)]

/-- A Python dict `del` by key. -/
def dictDelete [DecidableEq κ] (d : List (κ × ν)) (k : κ) : List (κ × ν) :=
  d.filter (fun p => decide (p.1 ≠ k))

/-- The `ChatManager` state: the conversation context and the bounded
response cache. The stateless formatter and the feedback list (unused
by the claims under verification) are omitted. -/
structure ChatManager where
  context : ConversationContext
  response_cache : List (List Char × CacheVal)
deriving DecidableEq

/-- `ChatManager._get_cache_key`: md5 of the message plus the first 500
characters of the document context (when a non-empty context is given;
appending the empty slice of an empty or missing context is the
identity, so the Python truthiness test folds away). -/
def getCacheKey (message : List Char) (context : Option (List Char)) : List Char :=
  md5Hex (message ++ (context.getD []).take 500)

/-- `ChatManager.process_ai_response`: formats the response, appends it
to the context as an assistant message, stores the result under the
cache key, and batch-evicts the 20 oldest-inserted entries when the
cache exceeds 100 entries. Returns the result dict and the new state. -/
def process_ai_response (cm : ChatManager) (response user_message : List Char)
    (pdf_context : Option (List Char)) (metadata : Option MetaDict) (now : Nat) :
    CacheVal × ChatManager :=
  let formatted := format_code_blocks (format_markdown response)
  let ctx' := add_message cm.context "assistant".toList formatted metadata now
  let cache_key := getCacheKey user_message pdf_context
  let result : CacheVal :=
    { formatted_response := formatted, raw_response := response,
      metadata := metadata.getD [], timestamp := now }
  let cache := dictSet cm.response_cache cache_key result
  let cache :=
    if 100 < cache.length then
      ((cache.map Prod.fst).take 20).foldl dictDelete cache
    else cache
  (result, { context := ctx', response_cache := cache })

/-! ## Claim C5 -/

theorem dictDelete_not_mem [DecidableEq κ] (d : List (κ × ν)) (k : κ)
    (h : k ∉ d.map Prod.fst) : dictDelete d k = d := by
  induction d with
  | nil => rfl
  | cons p t ih =>
    have hp : ¬p.1 = k := fun he => h (by simp [he.symm])
    have ht : k ∉ t.map Prod.fst := fun hm => h (by simp [hm])
    simp only [dictDelete, List.filter_cons]
    rw [if_pos (by simpa using hp)]
    exact congrArg (p :: ·) (ih ht)

theorem dictDelete_cons_self [DecidableEq κ] (p : κ × ν) (t : List (κ × ν))
    (h : p.1 ∉ t.map Prod.fst) : dictDelete (p :: t) p.1 = t := by
  simp only [dictDelete, List.filter_cons]
  rw [if_neg (by simp)]
  exact dictDelete_not_mem t p.1 h

theorem evictFold_drop [DecidableEq κ] (n : Nat) :
    ∀ d : List (κ × ν), (d.map Prod.fst).Nodup →
    ((d.map Prod.fst).take n).foldl dictDelete d = d.drop n := by
  induction n with
  | zero => intro d _; rfl
  | succ n ih =>
    intro d hd
    match d with
    | [] => rfl
    | p :: t =>
      rw [List.map_cons, List.nodup_cons] at hd
      obtain ⟨hmem, ht⟩ := hd
      calc (((p :: t).map Prod.fst).take (n + 1)).foldl dictDelete (p :: t)
          = ((t.map Prod.fst).take n).foldl dictDelete (dictDelete (p :: t) p.1) := by
            simp [List.foldl_cons]
        _ = ((t.map Prod.fst).take n).foldl dictDelete t := by
            rw [dictDelete_cons_self p t hmem]
        _ = t.drop n := ih t ht
        _ = (p :: t).drop (n + 1) := rfl

/-- C5: storing one more response into a cache of exactly 100 entries
(under a fresh key, with the distinct keys a Python dict guarantees)
appends the new entry and batch-evicts exactly the 20 oldest-inserted
entries, leaving 81: the 80 newest old entries followed by the new
one. -/
theorem cache_eviction_spec (cm : ChatManager) (response user_message : List Char)
    (pdf_context : Option (List Char)) (metadata : Option MetaDict) (now : Nat)
    (hlen : cm.response_cache.length = 100)
    (hnodup : (cm.response_cache.map Prod.fst).Nodup)
    (hfresh : getCacheKey user_message pdf_context ∉ cm.response_cache.map Prod.fst) :
    (process_ai_response cm response user_message pdf_context metadata now).2.response_cache
        = cm.response_cache.drop 20
            ++ [(getCacheKey user_message pdf_context,
                 { formatted_response := format_code_blocks (format_markdown response),
                   raw_response := response, metadata := metadata.getD [],
                   timestamp := now })]
      ∧ (process_ai_response cm response user_message pdf_context
          metadata now).2.response_cache.length = 81 := by
  set key := getCacheKey user_message pdf_context with hkey
  set v : CacheVal :=
    { formatted_response := format_code_blocks (format_markdown response),
      raw_response := response, metadata := metadata.getD [],
      timestamp := now } with hv
  have hnone : cm.response_cache.find? (fun p => p.1 = key) = none :=
    List.find?_eq_none.mpr (fun x hx => by
      simp only [decide_eq_true_eq]
      intro he
      exact hfresh (List.mem_map.mpr ⟨x, hx, he⟩))
  have hset : dictSet cm.response_cache key v
      = cm.response_cache ++ [(key, v)] := by
    simp [dictSet, hnone]
  have hkeys : ((cm.response_cache ++ [(key, v)]).map Prod.fst).Nodup := by
    rw [List.map_append]
    refine List.nodup_append.mpr ⟨hnodup, List.nodup_singleton _, ?_⟩
    simp only [List.map_cons, List.map_nil]
    rw [List.disjoint_singleton]
    exact hfresh
  have hlen2 : (cm.response_cache ++ [(key, v)]).length = 101 := by
    simp [hlen]
  have hmain : (process_ai_response cm response user_message pdf_context
      metadata now).2.response_cache
      = (cm.response_cache ++ [(key, v)]).drop 20 := by
    simp only [process_ai_response, ← hkey, ← hv]
    rw [hset, if_pos (by rw [hlen2]; omega)]
    exact evictFold_drop 20 _ hkeys
  rw [hmain, List.drop_append_eq_append_drop]
  constructor
  · have h20 : 20 - cm.response_cache.length = 0 := by omega
    rw [h20, List.drop_zero]
  · simp [hlen]

/-- A placeholder cached value for the witness state. -/
def cacheVal0 : CacheVal :=
  { formatted_response := [], raw_response := [], metadata := [], timestamp := 0 }

/-- A cache holding exactly 100 entries under pairwise distinct keys of
lengths 33 through 132. -/
def cache100 : List (List Char × CacheVal) :=
  (List.range 100).map (fun i => (List.replicate (i + 33) 'a', cacheVal0))

/-- A `ChatManager` whose cache holds exactly 100 entries. -/
def cm100 : ChatManager :=
  { context := mkConversationContext 10 4000, response_cache := cache100 }

set_option maxRecDepth 20000 in
/-- Witness for `cache_eviction_spec`: storing a 101st response leaves
the 80 newest old entries plus the new one. -/
theorem cache_eviction_spec_witness :
    (process_ai_response cm100 "hello".toList "question".toList none none
        7).2.response_cache
      = cache100.drop 20
          ++ [(getCacheKey "question".toList none,
               { formatted_response := format_code_blocks
                   (format_markdown "hello".toList),
                 raw_response := "hello".toList, metadata := [],
                 timestamp := 7 })]
    ∧ (process_ai_response cm100 "hello".toList "question".toList none none
        7).2.response_cache.length = 81 :=
  cache_eviction_spec cm100 "hello".toList "question".toList none none 7
    (by simp [cm100, cache100])
    (by
      have hk : cm100.response_cache.map Prod.fst
          = (List.range 100).map (fun i => List.replicate (i + 33) 'a') := by
        simp [cm100, cache100, List.map_map]
      rw [hk]
      refine List.Nodup.map ?_ (List.nodup_range 100)
      intro a b h
      have := congrArg List.length h
      simpa using this)
    (by decide)

/-! ## Claim C8: ChatManager.regenerate_response
(src/utils/chat_manager.py, lines 212-232) -/

/-- Python list indexing `l[i]` with negative-index wrapping; `none`
models an `IndexError`. -/
def pyGet (l : List α) (i : Int) : Option α :=
  let j : Int := if i < 0 then i + l.length else i
  if 0 ≤ j then l.get? j.toNat else none

/-- `ChatManager.regenerate_response`: looks up the message at
`message_index`, requires it to be an assistant message, then returns
the content of the message at `message_index - 1` — guarded by a
`user_message_index < 0` test that fires for every negative
`message_index`. An uncaught `IndexError` (reachable at
`message_index == len(messages)`) is modelled as `.error`. -/
def regenerate_response (cm : ChatManager) (message_index : Int) :
    Except (List Char) (Option (List Char)) :=
  let messages := cm.context.messages
  if messages.isEmpty then .ok none
  else if messages.length < message_index.natAbs then .ok none
  else
    match pyGet messages message_index with
    | none => .error "IndexError: list index out of range".toList
    | some target =>
      if !(target.role = "assistant".toList) then .ok none
      else
        let user_message_index : Int := message_index - 1
        if user_message_index < 0 then .ok none
        else
          match pyGet messages user_message_index with
          | none => .error "IndexError: list index out of range".toList
          | some user_message => .ok (some user_message.content)

/-- A two-message conversation: a user question followed by an
assistant answer. -/
def cmQA : ChatManager :=
  { context :=
      { max_history := 10, max_tokens := 4000,
        messages :=
          [{ role := "user".toList, content := "q".toList, timestamp := 0,
             metadata := [] },
           { role := "assistant".toList, content := "a".toList, timestamp := 1,
             metadata := [] }],
        topic_tracking := [] },
    response_cache := [] }

/-- C8: at the default index -1 the code always returns None, even
though the message at -1 is an assistant message and a user message
with content "q" immediately precedes it — because
`user_message_index = -2` trips the `user_message_index < 0` guard.
The claim (and the function's own purpose: the default `-1` is meant to
regenerate the latest response) says the preceding user content should
be returned. -/
theorem regenerate_response_default_returns_none :
    regenerate_response cmQA (-1) = .ok none
    ∧ (pyGet cmQA.context.messages (-1)).map Message.role
        = some "assistant".toList
    ∧ (pyGet cmQA.context.messages (-2)).map Message.content
        = some "q".toList := ⟨rfl, rfl, rfl⟩

/-! ## SHA-256 (hashlib.sha256, used by
`StorageManager.generate_document_id`) -/

/-- 32-bit right rotation. -/
def rotr32 (x s : Nat) : Nat := x / 2 ^ s + w32 (x * 2 ^ (32 - s))

/-- A 32-bit word from four big-endian bytes. -/
def be32OfBytes (b0 b1 b2 b3 : Nat) : Nat :=
  16777216 * b0 + 65536 * b1 + 256 * b2 + b3

/-- The four big-endian bytes of a 32-bit value. -/
def be32Bytes (n : Nat) : List Nat :=
  [n / 16777216 % 256, n / 65536 % 256, n / 256 % 256, n % 256]

/-- The eight big-endian bytes of a 64-bit value. -/
def be64Bytes (n : Nat) : List Nat :=
  ((List.range 8).map (fun i => n / 2 ^ (8 * i) % 256)).reverse

/-- SHA-256 padding: 0x80, zeros to 56 mod 64, bit length as 64-bit
big-endian. -/
def sha256Pad (msg : List Nat) : List Nat :=
  let padlen := (120 - (msg.length + 1) % 64) % 64
  msg ++ [128] ++ List.replicate padlen 0 ++ be64Bytes (8 * msg.length)

/-- The SHA-256 round constants (fractional parts of the cube roots of
the first 64 primes). -/
def sha256K : List Nat :=
  [1116352408, 1899447441, 3049323471, 3921009573,
   961987163, 1508970993, 2453635748, 2870763221,
   3624381080, 310598401, 607225278, 1426881987,
   1925078388, 2162078206, 2614888103, 3248222580,
   3835390401, 4022224774, 264347078, 604807628,
   770255983, 1249150122, 1555081692, 1996064986,
   2554220882, 2821834349, 2952996808, 3210313671,
   3336571891, 3584528711, 113926993, 338241895,
   666307205, 773529912, 1294757372, 1396182291,
   1695183700, 1986661051, 2177026350, 2456956037,
   2730485921, 2820302411, 3259730800, 3345764771,
   3516065817, 3600352804, 4094571909, 275423344,
   430227734, 506948616, 659060556, 883997877,
   958139571, 1322822218, 1537002063, 1747873779,
   1955562222, 2024104815, 2227730452, 2361852424,
   2428436474, 2756734187, 3204031479, 3329325298]

/-- The 64-word SHA-256 message schedule of one 64-byte block. -/
def sha256Schedule (block : List Nat) : List Nat :=
  let w0 := (List.range 16).map (fun i =>
    be32OfBytes (block.getD (4 * i) 0) (block.getD (4 * i + 1) 0)
      (block.getD (4 * i + 2) 0) (block.getD (4 * i + 3) 0))
  (List.range 48).foldl (fun w _ =>
    let i := w.length
    let s0 := rotr32 (w.getD (i - 15) 0) 7 ^^^ rotr32 (w.getD (i - 15) 0) 18
      ^^^ w.getD (i - 15) 0 / 8
    let s1 := rotr32 (w.getD (i - 2) 0) 17 ^^^ rotr32 (w.getD (i - 2) 0) 19
      ^^^ w.getD (i - 2) 0 / 1024
    w ++ [w32 (w.getD (i - 16) 0 + s0 + w.getD (i - 7) 0 + s1)]) w0

/-- The running state of SHA-256 (eight 32-bit words). -/
structure Sha256State where
  a : Nat
  b : Nat
  c : Nat
  d : Nat
  e : Nat
  f : Nat
  g : Nat
  h : Nat

/-- SHA-256 compression of one 64-byte block. -/
def sha256Block (st : Sha256State) (block : List Nat) : Sha256State :=
  let w := sha256Schedule block
  let r := (List.range 64).foldl (fun s i =>
    let bigS1 := rotr32 s.e 6 ^^^ rotr32 s.e 11 ^^^ rotr32 s.e 25
    let ch := (s.e &&& s.f) ^^^ (not32 s.e &&& s.g)
    let temp1 := w32 (s.h + bigS1 + ch + sha256K.getD i 0 + w.getD i 0)
    let bigS0 := rotr32 s.a 2 ^^^ rotr32 s.a 13 ^^^ rotr32 s.a 22
    let maj := (s.a &&& s.b) ^^^ (s.a &&& s.c) ^^^ (s.b &&& s.c)
    let temp2 := w32 (bigS0 + maj)
    { a := w32 (temp1 + temp2), b := s.a, c := s.b, d := s.c,
      e := w32 (s.d + temp1), f := s.e, g := s.f, h := s.g }) st
  { a := w32 (st.a + r.a), b := w32 (st.b + r.b), c := w32 (st.c + r.c),
    d := w32 (st.d + r.d), e := w32 (st.e + r.e), f := w32 (st.f + r.f),
    g := w32 (st.g + r.g), h := w32 (st.h + r.h) }

/-- The 32 digest bytes of SHA-256 over a byte list. -/
def sha256Bytes (msg : List Nat) : List Nat :=
  let padded := sha256Pad msg
  let blocks := chunksOf 64 (padded.length / 64) padded
  let st := blocks.foldl sha256Block
    { a := 1779033703, b := 3144134277, c := 1013904242, d := 2773480762,
      e := 1359893119, f := 2600822924, g := 528734635, h := 1541459225 }
  be32Bytes st.a ++ be32Bytes st.b ++ be32Bytes st.c ++ be32Bytes st.d
    ++ be32Bytes st.e ++ be32Bytes st.f ++ be32Bytes st.g ++ be32Bytes st.h

/-- `hashlib.sha256(bs).hexdigest()`. -/
def sha256Hex (bs : List Nat) : List Char := bytesToHex (sha256Bytes bs)

/-! ## gzip and base64 (gzip.compress/decompress, base64.b64encode/
b64decode, used by `compress_text`/`decompress_text`)

The gzip member format (RFC 1952) is modelled faithfully: header with
magic bytes, CM=8, FLG=0 and ignored mtime/XFL/OS fields, a DEFLATE
payload, then CRC-32 and ISIZE (input length mod 2^32), both checked by
the decompressor. The DEFLATE payload is modelled with stored
(uncompressed, BTYPE=00) blocks of RFC 1951 §3.2.4 — a valid encoding
choice that differs from zlib's Huffman-coded output; since stored
blocks are byte-aligned after the 3 header bits, each block is one flag
byte (BFINAL), LEN and NLEN = 65535 - LEN as 16-bit little-endian
values, then LEN raw bytes. -/

/-- One step of the bitwise CRC-32 (IEEE polynomial, reflected). -/
def crc32Step (c : Nat) : Nat :=
  if c % 2 = 1 then c / 2 ^^^ 3988292384 else c / 2

/-- CRC-32 update by one byte. -/
def crc32Byte (c b : Nat) : Nat :=
  let c := c ^^^ b
  crc32Step (crc32Step (crc32Step (crc32Step
    (crc32Step (crc32Step (crc32Step (crc32Step c)))))))

/-- CRC-32 of a byte list (`zlib.crc32`). -/
def crc32 (bs : List Nat) : Nat :=
  4294967295 ^^^ bs.foldl crc32Byte 4294967295

/-- Split a byte list into stored-block payloads of at most 65535
bytes; the empty input yields one empty block. -/
def chunksStored (l : List Nat) : List (List Nat) :=
  if l.length ≤ 65535 then [l]
  else l.take 65535 :: chunksStored (l.drop 65535)
termination_by l.length
decreasing_by simp only [List.length_drop]; omega

/-- One stored block: BFINAL flag byte, LEN, NLEN, raw payload. -/
def storedBlock (final : Bool) (c : List Nat) : List Nat :=
  (if final then 1 else 0) :: c.length % 256 :: c.length / 256 ::
    (65535 - c.length) % 256 :: (65535 - c.length) / 256 :: c

/-- The DEFLATE stream of a chunk list (last block flagged final). -/
def deflateChunks : List (List Nat) → List Nat
  | [] => []
  | [c] => storedBlock true c
  | c :: c2 :: cs => storedBlock false c ++ deflateChunks (c2 :: cs)

/-- A stored-blocks DEFLATE stream for a byte list. -/
def deflateStored (l : List Nat) : List Nat := deflateChunks (chunksStored l)

/-- The gzip member header: magic, CM=8, FLG=0, mtime 0, XFL 0,
OS 255. -/
def gzipHeader : List Nat := [31, 139, 8, 0, 0, 0, 0, 0, 0, 255]

/-- `gzip.compress` (modelled with stored blocks; mtime fixed to 0 for
determinism — the decompressor ignores it). -/
def gzipCompress (data : List Nat) : List Nat :=
  gzipHeader ++ deflateStored data ++ le32Bytes (crc32 data)
    ++ le32Bytes (data.length % 4294967296)

/-- Stored-block inflation: parses blocks until BFINAL, returning the
payload and the remaining bytes. The fuel only forces termination; one
more than the input length always suffices (each block consumes at
least five bytes). -/
def inflateStoredAux : Nat → List Nat → Except (List Char) (List Nat × List Nat)
  | 0, _ => .error "inflate: out of fuel".toList
  | fuel + 1, f :: l0 :: l1 :: n0 :: n1 :: rest =>
    let len := l0 + 256 * l1
    let nlen := n0 + 256 * n1
    if f = 0 || f = 1 then
      if len + nlen = 65535 then
        if len ≤ rest.length then
          if f = 1 then .ok (rest.take len, rest.drop len)
          else do
            let (more, rem2) ← inflateStoredAux fuel (rest.drop len)
            .ok (rest.take len ++ more, rem2)
        else .error "inflate: truncated block".toList
      else .error "inflate: length check failed".toList
    else .error "inflate: unsupported block type".toList
  | _ + 1, _ => .error "inflate: truncated header".toList

/-- The CRC-32 and ISIZE check on the eight gzip trailer bytes. -/
def checkTrailer (payload rem : List Nat) : Except (List Char) (List Nat) :=
  match rem with
  | [c0, c1, c2, c3, s0, s1, s2, s3] =>
    if c0 + 256 * c1 + 65536 * c2 + 16777216 * c3 = crc32 payload then
      if s0 + 256 * s1 + 65536 * s2 + 16777216 * s3
          = payload.length % 4294967296 then
        .ok payload
      else .error "gzip: size mismatch".toList
    else .error "gzip: CRC check failed".toList
  | _ => .error "gzip: truncated trailer".toList

/-- `gzip.decompress` for an FLG=0 member (which is what the paired
compressor emits): checks the magic bytes, CM and FLG, ignores mtime,
XFL and OS, inflates, and verifies CRC-32 and ISIZE. -/
def gunzip (data : List Nat) : Except (List Char) (List Nat) :=
  match data with
  | b0 :: b1 :: b2 :: b3 :: _ :: _ :: _ :: _ :: _ :: _ :: rest =>
    if b0 = 31 && b1 = 139 && b2 = 8 && b3 = 0 then
      match inflateStoredAux (rest.length + 1) rest with
      | .ok (payload, rem) => checkTrailer payload rem
      | .error e => .error e
    else .error "gzip: bad header".toList
  | _ => .error "gzip: bad header".toList

/-- The base64 alphabet. -/
def b64Alphabet : List Char :=
  "ABCDEFGHIJKLMNOPQRSTUVWXYZabcdefghijklmnopqrstuvwxyz0123456789+/".toList

/-- The base64 character of a 6-bit value. -/
def b64Char (n : Nat) : Char := b64Alphabet.getD n '?'

/-- `base64.b64encode`: three bytes to four characters, with `=`
padding. -/
def b64Encode : List Nat → List Char
  | b1 :: b2 :: b3 :: rest =>
    b64Char (b1 / 4) :: b64Char (b1 % 4 * 16 + b2 / 16) ::
      b64Char (b2 % 16 * 4 + b3 / 64) :: b64Char (b3 % 64) :: b64Encode rest
  | [b1, b2] =>
    [b64Char (b1 / 4), b64Char (b1 % 4 * 16 + b2 / 16), b64Char (b2 % 16 * 4), '=']
  | [b1] => [b64Char (b1 / 4), b64Char (b1 % 4 * 16), '=', '=']
  | [] => []

/-- The 6-bit value of a base64 character. -/
def b64DecChar (c : Char) : Option Nat :=
  (List.range 64).find? (fun i => b64Alphabet.getD i '?' = c)

/-- `base64.b64decode` on properly padded input (the image of
`b64Encode`; Python additionally discards non-alphabet characters
before decoding, which never occur here). -/
def b64Decode : List Char → Except (List Char) (List Nat)
  | [] => .ok []
  | c1 :: c2 :: c3 :: c4 :: rest =>
    match b64DecChar c1, b64DecChar c2 with
    | some v1, some v2 =>
      if c3 = '=' && c4 = '=' && rest.isEmpty then
        .ok [v1 * 4 + v2 / 16]
      else if c4 = '=' && rest.isEmpty then
        match b64DecChar c3 with
        | some v3 => .ok [v1 * 4 + v2 / 16, v2 % 16 * 16 + v3 / 4]
        | none => .error "base64: invalid character".toList
      else
        match b64DecChar c3, b64DecChar c4 with
        | some v3, some v4 => do
          let tail ← b64Decode rest
          .ok ((v1 * 4 + v2 / 16) :: (v2 % 16 * 16 + v3 / 4) :: (v3 % 4 * 64 + v4) :: tail)
        | _, _ => .error "base64: invalid character".toList
    | _, _ => .error "base64: invalid character".toList
  | _ => .error "base64: invalid length".toList

/-- One-continuation-byte decode step (leading byte `0xC0`-`0xDF`). -/
def utf8Cont1 (b : Nat) (rest : List Nat) : Except (List Char) (Nat × List Nat) :=
  match rest with
  | b2 :: rest2 =>
    if 128 ≤ b2 ∧ b2 < 192 then
      let v := (b - 192) * 64 + (b2 - 128)
      if 128 ≤ v then .ok (v, rest2)
      else .error "utf-8: overlong encoding".toList
    else .error "utf-8: bad continuation".toList
  | [] => .error "utf-8: truncated".toList

/-- Two-continuation-byte decode step (leading byte `0xE0`-`0xEF`). -/
def utf8Cont2 (b : Nat) (rest : List Nat) : Except (List Char) (Nat × List Nat) :=
  match rest with
  | b2 :: b3 :: rest2 =>
    if (128 ≤ b2 ∧ b2 < 192) ∧ (128 ≤ b3 ∧ b3 < 192) then
      let v := (b - 224) * 4096 + (b2 - 128) * 64 + (b3 - 128)
      if 2048 ≤ v ∧ ¬(55296 ≤ v ∧ v ≤ 57343) then .ok (v, rest2)
      else .error "utf-8: overlong or surrogate".toList
    else .error "utf-8: bad continuation".toList
  | _ => .error "utf-8: truncated".toList

/-- Three-continuation-byte decode step (leading byte `0xF0`-`0xF7`). -/
def utf8Cont3 (b : Nat) (rest : List Nat) : Except (List Char) (Nat × List Nat) :=
  match rest with
  | b2 :: b3 :: b4 :: rest2 =>
    if ((128 ≤ b2 ∧ b2 < 192) ∧ (128 ≤ b3 ∧ b3 < 192)) ∧ (128 ≤ b4 ∧ b4 < 192) then
      let v := (b - 240) * 262144 + (b2 - 128) * 4096 + (b3 - 128) * 64 + (b4 - 128)
      if 65536 ≤ v ∧ v < 1114112 then .ok (v, rest2)
      else .error "utf-8: out of range".toList
    else .error "utf-8: bad continuation".toList
  | _ => .error "utf-8: truncated".toList

/-- Decode one scalar value from a leading byte and the remaining
bytes: strict UTF-8 checks (stray or missing continuation bytes,
overlong encodings, surrogates and values beyond U+10FFFF rejected). -/
def utf8DecodeOne (b : Nat) (rest : List Nat) : Except (List Char) (Nat × List Nat) :=
  if b < 128 then .ok (b, rest)
  else if b < 192 then .error "utf-8: stray continuation byte".toList
  else if b < 224 then utf8Cont1 b rest
  else if b < 240 then utf8Cont2 b rest
  else if b < 248 then utf8Cont3 b rest
  else .error "utf-8: invalid byte".toList

/-- The decode loop; the fuel bounds the number of decoded characters
and one more than the byte length always suffices. -/
def utf8DecodeAux : Nat → List Nat → Except (List Char) (List Char)
  | 0, _ => .error "utf-8: fuel exhausted".toList
  | _ + 1, [] => .ok []
  | fuel + 1, b :: rest =>
    Except.bind (utf8DecodeOne b rest) (fun vr =>
      Except.map (fun t => Char.ofNat vr.1 :: t) (utf8DecodeAux fuel vr.2))

/-- Strict UTF-8 decoding (Python `bytes.decode('utf-8')`). -/
def utf8Decode (l : List Nat) : Except (List Char) (List Char) :=
  utf8DecodeAux (l.length + 1) l

/-! ## StorageManager (src/utils/storage_manager.py) -/

/-- `StorageManager.compress_text`: UTF-8 encode, gzip, base64. -/
def compress_text (text : List Char) : List Char :=
  b64Encode (gzipCompress (utf8Encode text))

/-- `StorageManager.decompress_text`: base64 decode, gunzip, UTF-8
decode; any failure raises (modelled as `.error`). -/
def decompress_text (compressed : List Char) : Except (List Char) (List Char) := do
  let decoded ← b64Decode compressed
  let raw ← gunzip decoded
  utf8Decode raw

/-- `StorageManager.generate_document_id`: sha256 of the UTF-8 encoding
of the first 1024 characters, truncated to 16 hex digits. -/
def generate_document_id (content : List Char) : List Char :=
  (sha256Hex (utf8Encode (content.take 1024))).take 16

/-- `StorageManager.chunk_text`: overlapping word windows (window
`chunk_size`, stride `chunk_size - overlap`). -/
def chunk_text (text : List Char) (chunk_size overlap : Nat) : List (List Char) :=
  let words := splitWs text
  let step := chunk_size - overlap
  (List.range' 0 ((words.length + step - 1) / step) step).map
    (fun i => joinSpace ((words.drop i).take chunk_size))

/-- A stored document record. -/
structure StoredDoc where
  id : List Char
  filename : List Char
  upload_date : Nat
  last_accessed : Nat
  text_chunks : List (List Char)
  chunk_count : Nat
  original_size : Nat
  compressed_size : Nat
  metadata : MetaDict
deriving DecidableEq

/-- The document store (the conversation, settings and analytics maps
of the session state are untouched by the claims under verification). -/
structure StorageState where
  documents : List (List Char × StoredDoc)
deriving DecidableEq

/-- `StorageManager.store_document`: computes the content id; an id
collision under a different filename returns the sentinel string
`DUPLICATE:<id>` without touching the store; otherwise the text is
chunked (500-word windows, 50-word overlap), each chunk compressed, and
the record written under the id. -/
def store_document (st : StorageState) (filename text : List Char)
    (metadata : Option MetaDict) (now : Nat) : List Char × StorageState :=
  let doc_id := generate_document_id text
  let storeNew := fun (_ : Unit) =>
    let chunks := chunk_text text 500 50
    let compressed_chunks := chunks.map compress_text
    let doc : StoredDoc :=
      { id := doc_id, filename := filename, upload_date := now,
        last_accessed := now, text_chunks := compressed_chunks,
        chunk_count := chunks.length, original_size := text.length,
        compressed_size := (compressed_chunks.map List.length).sum,
        metadata := metadata.getD [] }
    (doc_id, { st with documents := dictSet st.documents doc_id doc })
  match st.documents.find? (fun p => p.1 = doc_id) with
  | some existing =>
    if existing.2.filename ≠ filename then
      ("DUPLICATE:".toList ++ doc_id, st)
    else storeNew ()
  | none => storeNew ()

/-! ## Claim C6 -/

/-- C6: two contents agreeing on their first 1024 characters receive
the same document id, and storing the second under a different filename
while the first is in the store returns the sentinel
`DUPLICATE:<existing id>` and leaves the store unchanged, rather than
storing a new document or raising. -/
theorem store_document_duplicate (st : StorageState) (c1 c2 f2 : List Char)
    (md : Option MetaDict) (now : Nat) (entry : List Char × StoredDoc)
    (hpre : c1.take 1024 = c2.take 1024)
    (hfound : st.documents.find? (fun p => p.1 = generate_document_id c1)
        = some entry)
    (hname : entry.2.filename ≠ f2) :
    generate_document_id c2 = generate_document_id c1
    ∧ store_document st f2 c2 md now
        = ("DUPLICATE:".toList ++ generate_document_id c1, st) := by
  have hid : generate_document_id c2 = generate_document_id c1 := by
    rw [generate_document_id, generate_document_id, hpre]
  refine ⟨hid, ?_⟩
  simp only [store_document, hid, hfound]
  rw [if_pos hname]

/-- The stored record of the duplicate witness (its fields other than
the filename are irrelevant to the scenario). -/
def docA : StoredDoc :=
  { id := generate_document_id (List.replicate 1100 'a'),
    filename := "a.txt".toList, upload_date := 1, last_accessed := 1,
    text_chunks := [], chunk_count := 1, original_size := 1100,
    compressed_size := 0, metadata := [] }

/-- Content of document A: 1100 copies of `a`. -/
def cTextA : List Char := List.replicate 1100 'a'

/-- Content of document B: the same first 1024 characters, different
beyond them. -/
def cTextB : List Char := List.replicate 1024 'a' ++ List.replicate 76 'b'

/-- A store holding document A under its content id. -/
def stA : StorageState :=
  { documents := [(generate_document_id cTextA, docA)] }

set_option maxRecDepth 8000 in
/-- Witness for `store_document_duplicate`: contents differing only
beyond the first 1KB collide, and the second upload under a new
filename is refused with the existing id. -/
theorem store_document_duplicate_witness :
    generate_document_id cTextB = generate_document_id cTextA
    ∧ store_document stA "b.txt".toList cTextB none 9
        = ("DUPLICATE:".toList ++ generate_document_id cTextA, stA) :=
  store_document_duplicate stA cTextA cTextB "b.txt".toList none 9
    (generate_document_id cTextA, docA)
    (by decide)
    (List.find?_cons_of_pos _ (by simp))
    (by decide)

/-! ## Claim C7: the compression round trip -/

theorem b64DecChar_b64Char : ∀ n < 64, b64DecChar (b64Char n) = some n := by
  decide

theorem b64Char_ne_pad : ∀ n < 64, ¬(b64Char n = '=') := by decide

theorem b64_roundtrip (bs : List Nat) (h : ∀ b ∈ bs, b < 256) :
    b64Decode (b64Encode bs) = .ok bs := by
  induction bs using b64Encode.induct with
  | case1 b1 b2 b3 rest ih =>
    have hb1 : b1 < 256 := h b1 (by simp)
    have hb2 : b2 < 256 := h b2 (by simp)
    have hb3 : b3 < 256 := h b3 (by simp)
    have d1 := b64DecChar_b64Char (b1 / 4) (by omega)
    have d2 := b64DecChar_b64Char (b1 % 4 * 16 + b2 / 16) (by omega)
    have d3 := b64DecChar_b64Char (b2 % 16 * 4 + b3 / 64) (by omega)
    have d4 := b64DecChar_b64Char (b3 % 64) (by omega)
    have n3 := b64Char_ne_pad (b2 % 16 * 4 + b3 / 64) (by omega)
    have n4 := b64Char_ne_pad (b3 % 64) (by omega)
    have ihh := ih (fun b hb => h b (by simp [hb]))
    have e1 : b1 / 4 * 4 + (b1 % 4 * 16 + b2 / 16) / 16 = b1 := by omega
    have e2 : (b1 % 4 * 16 + b2 / 16) % 16 * 16 + (b2 % 16 * 4 + b3 / 64) / 4
        = b2 := by omega
    have e3 : (b2 % 16 * 4 + b3 / 64) % 4 * 64 + b3 % 64 = b3 := by omega
    simp [b64Encode, b64Decode, d1, d2, d3, d4, n3, n4, ihh, e1, e2, e3]
    rfl
  | case2 b1 b2 =>
    have hb1 : b1 < 256 := h b1 (by simp)
    have hb2 : b2 < 256 := h b2 (by simp)
    have d1 := b64DecChar_b64Char (b1 / 4) (by omega)
    have d2 := b64DecChar_b64Char (b1 % 4 * 16 + b2 / 16) (by omega)
    have d3 := b64DecChar_b64Char (b2 % 16 * 4) (by omega)
    have n3 := b64Char_ne_pad (b2 % 16 * 4) (by omega)
    have e1 : b1 / 4 * 4 + (b1 % 4 * 16 + b2 / 16) / 16 = b1 := by omega
    have e2 : (b1 % 4 * 16 + b2 / 16) % 16 * 16 + (b2 % 16 * 4) / 4 = b2 := by
      omega
    simp [b64Encode, b64Decode, d1, d2, d3, n3, e1]
    omega
  | case3 b1 =>
    have hb1 : b1 < 256 := h b1 (by simp)
    have d1 := b64DecChar_b64Char (b1 / 4) (by omega)
    have d2 := b64DecChar_b64Char (b1 % 4 * 16) (by omega)
    have e1 : b1 / 4 * 4 + (b1 % 4 * 16) / 16 = b1 := by omega
    simp [b64Encode, b64Decode, d1, d2]
    omega
  | case4 => rfl

theorem chunksStored_flatten (l : List Nat) : (chunksStored l).flatten = l := by
  induction l using chunksStored.induct with
  | case1 l h => rw [chunksStored, if_pos h]; simp
  | case2 l h ih => rw [chunksStored, if_neg h]; simp [ih]

theorem chunksStored_ne_nil (l : List Nat) : chunksStored l ≠ [] := by
  induction l using chunksStored.induct with
  | case1 l h => rw [chunksStored, if_pos h]; simp
  | case2 l h _ => rw [chunksStored, if_neg h]; simp

theorem chunksStored_le (l : List Nat) :
    ∀ c ∈ chunksStored l, c.length ≤ 65535 := by
  induction l using chunksStored.induct with
  | case1 l h => rw [chunksStored, if_pos h]; simpa using h
  | case2 l h ih =>
    rw [chunksStored, if_neg h]
    intro c hc
    rcases List.mem_cons.mp hc with rfl | hc'
    · simp
    · exact ih c hc'

theorem chunksStored_mem_mem (l : List Nat) :
    ∀ c ∈ chunksStored l, ∀ b ∈ c, b ∈ l := by
  intro c hc b hb
  have hbf : b ∈ (chunksStored l).flatten := List.mem_flatten.mpr ⟨c, hc, hb⟩
  rwa [chunksStored_flatten] at hbf

theorem deflateChunks_length_ge (cs : List (List Nat)) :
    cs.length ≤ (deflateChunks cs).length := by
  induction cs using deflateChunks.induct with
  | case1 => simp [deflateChunks]
  | case2 c => simp [deflateChunks, storedBlock]
  | case3 c c2 cs2 ih =>
    rw [deflateChunks]
    simp only [List.length_append, List.length_cons, storedBlock]
    simp only [List.length_cons] at ih ⊢
    omega

theorem inflate_deflateChunks (cs : List (List Nat)) :
    cs ≠ [] → (∀ c ∈ cs, c.length ≤ 65535) →
    ∀ fuel, cs.length ≤ fuel → ∀ trailer,
    inflateStoredAux fuel (deflateChunks cs ++ trailer)
      = .ok (cs.flatten, trailer) := by
  induction cs with
  | nil => intro hne; exact absurd rfl hne
  | cons c cs ih =>
    intro _ hlen fuel hf trailer
    have hc : c.length ≤ 65535 := hlen c (by simp)
    obtain ⟨fuel, rfl⟩ : ∃ f, fuel = f + 1 :=
      ⟨fuel - 1, by simp at hf; omega⟩
    have elen : c.length % 256 + 256 * (c.length / 256) = c.length := by omega
    have enlen : (65535 - c.length) % 256 + 256 * ((65535 - c.length) / 256)
        = 65535 - c.length := by omega
    have e3 : c.length + (65535 - c.length) = 65535 := by omega
    cases cs with
    | nil =>
      rw [deflateChunks, storedBlock]
      simp only [List.cons_append, inflateStoredAux]
      rw [elen, enlen]
      have e4 : c.length ≤ (c ++ trailer).length := by simp
      simp [e3, e4, List.take_left, List.drop_left]
    | cons c2 cs2 =>
      rw [deflateChunks, storedBlock]
      simp only [List.cons_append, List.append_assoc, inflateStoredAux]
      rw [elen, enlen]
      have e4 : c.length ≤ (c ++ (deflateChunks (c2 :: cs2) ++ trailer)).length := by
        simp
      have hrec := ih (by simp) (fun d hd => hlen d (by simp [hd])) fuel
        (by simp at hf ⊢; omega) trailer
      simp [e3, e4, List.take_left, List.drop_left, hrec]
      rfl

theorem crc32Step_lt (c : Nat) (h : c < 4294967296) :
    crc32Step c < 4294967296 := by
  have h32 : (4294967296 : Nat) = 2 ^ 32 := by norm_num
  rw [crc32Step]
  split
  · rw [h32]
    exact Nat.xor_lt_two_pow (by omega) (by norm_num)
  · omega

theorem crc32Byte_lt (c b : Nat) (hc : c < 4294967296) (hb : b < 256) :
    crc32Byte c b < 4294967296 := by
  have h32 : (4294967296 : Nat) = 2 ^ 32 := by norm_num
  have h0 : c ^^^ b < 4294967296 := by
    rw [h32]
    exact Nat.xor_lt_two_pow (by omega) (by omega)
  rw [crc32Byte]
  exact crc32Step_lt _ (crc32Step_lt _ (crc32Step_lt _ (crc32Step_lt _
    (crc32Step_lt _ (crc32Step_lt _ (crc32Step_lt _ (crc32Step_lt _ h0)))))))

theorem crc32_foldl_lt (bs : List Nat) :
    ∀ acc, acc < 4294967296 → (∀ b ∈ bs, b < 256) →
    bs.foldl crc32Byte acc < 4294967296 := by
  induction bs with
  | nil => intro acc h _; simpa using h
  | cons b t ih =>
    intro acc h hb
    rw [List.foldl_cons]
    exact ih _ (crc32Byte_lt acc b h (hb b (by simp)))
      (fun x hx => hb x (by simp [hx]))

theorem crc32_lt (bs : List Nat) (h : ∀ b ∈ bs, b < 256) :
    crc32 bs < 4294967296 := by
  have h32 : (4294967296 : Nat) = 2 ^ 32 := by norm_num
  rw [crc32, h32]
  exact Nat.xor_lt_two_pow (by norm_num)
    (by rw [← h32]; exact crc32_foldl_lt bs 4294967295 (by norm_num) h)

theorem gunzip_gzipCompress (data : List Nat) (h : ∀ b ∈ data, b < 256) :
    gunzip (gzipCompress data) = .ok data := by
  have hshape : gzipCompress data
      = 31 :: 139 :: 8 :: 0 :: 0 :: 0 :: 0 :: 0 :: 0 :: 255 ::
        (deflateStored data ++ (le32Bytes (crc32 data)
          ++ le32Bytes (data.length % 4294967296))) := by
    simp [gzipCompress, gzipHeader]
  rw [hshape, gunzip]
  rw [if_pos (by simp)]
  have hinf : inflateStoredAux ((deflateStored data
        ++ (le32Bytes (crc32 data)
          ++ le32Bytes (data.length % 4294967296))).length + 1)
      (deflateStored data ++ (le32Bytes (crc32 data)
        ++ le32Bytes (data.length % 4294967296)))
      = .ok (data, le32Bytes (crc32 data)
          ++ le32Bytes (data.length % 4294967296)) := by
    have := inflate_deflateChunks (chunksStored data) (chunksStored_ne_nil data)
      (chunksStored_le data)
      ((deflateStored data ++ (le32Bytes (crc32 data)
        ++ le32Bytes (data.length % 4294967296))).length + 1)
      (by
        have h1 := deflateChunks_length_ge (chunksStored data)
        simp only [List.length_append]
        rw [deflateStored] at *
        omega)
      (le32Bytes (crc32 data) ++ le32Bytes (data.length % 4294967296))
    rw [deflateStored, chunksStored_flatten] at *
    exact this
  rw [hinf]
  have hc := crc32_lt data h
  have hl : data.length % 4294967296 < 4294967296 := Nat.mod_lt _ (by norm_num)
  have hle1 : le32Bytes (crc32 data)
      = [crc32 data % 256, crc32 data / 256 % 256, crc32 data / 65536 % 256,
         crc32 data / 16777216 % 256] := by
    simp [le32Bytes, List.range_succ]
  have hle2 : le32Bytes (data.length % 4294967296)
      = [data.length % 4294967296 % 256, data.length % 4294967296 / 256 % 256,
         data.length % 4294967296 / 65536 % 256,
         data.length % 4294967296 / 16777216 % 256] := by
    simp [le32Bytes, List.range_succ]
  rw [hle1, hle2]
  have ecrc : crc32 data % 256 + 256 * (crc32 data / 256 % 256)
      + 65536 * (crc32 data / 65536 % 256)
      + 16777216 * (crc32 data / 16777216 % 256) = crc32 data := by omega
  have esize : data.length % 4294967296 % 256
      + 256 * (data.length % 4294967296 / 256 % 256)
      + 65536 * (data.length % 4294967296 / 65536 % 256)
      + 16777216 * (data.length % 4294967296 / 16777216 % 256)
      = data.length % 4294967296 := by omega
  simp only [List.cons_append, List.nil_append]
  rw [checkTrailer]
  rw [if_pos ecrc, if_pos esize]

theorem char_bounds (c : Char) :
    c.toNat < 55296 ∨ (57343 < c.toNat ∧ c.toNat < 1114112) := by
  rcases c.valid with h | ⟨h1, h2⟩
  · exact Or.inl h
  · exact Or.inr ⟨h1, h2⟩

theorem utf8EncodeChar_lt (c : Char) : ∀ b ∈ utf8EncodeChar c, b < 256 := by
  have hv : c.toNat < 1114112 := by
    rcases char_bounds c with h | ⟨_, h2⟩ <;> omega
  intro b hb
  rw [utf8EncodeChar] at hb
  split_ifs at hb <;> simp at hb <;> omega

theorem utf8Encode_cons (c : Char) (t : List Char) :
    utf8Encode (c :: t) = utf8EncodeChar c ++ utf8Encode t := rfl

theorem utf8Encode_lt (s : List Char) : ∀ b ∈ utf8Encode s, b < 256 := by
  induction s with
  | nil => simp [utf8Encode]
  | cons c t ih =>
    intro b hb
    rw [utf8Encode_cons, List.mem_append] at hb
    rcases hb with hb | hb
    · exact utf8EncodeChar_lt c b hb
    · exact ih b hb

theorem exceptBind_ok (a : α) (f : α → Except ε β) :
    Except.bind (Except.ok a) f = f a := rfl

theorem exceptMap_ok (a : α) (f : α → β) :
    Except.map f (Except.ok a : Except ε α) = Except.ok (f a) := rfl

theorem utf8Encode_length_ge (s : List Char) :
    s.length ≤ (utf8Encode s).length := by
  induction s with
  | nil => simp [utf8Encode]
  | cons c t ih =>
    rw [utf8Encode_cons, List.length_append, List.length_cons]
    have : 1 ≤ (utf8EncodeChar c).length := by
      rw [utf8EncodeChar]
      split_ifs <;> simp
    omega

theorem utf8DecodeAux_roundtrip (s : List Char) :
    ∀ fuel, s.length < fuel → utf8DecodeAux fuel (utf8Encode s) = .ok s := by
  induction s with
  | nil =>
    intro fuel hf
    obtain ⟨f, rfl⟩ : ∃ f, fuel = f + 1 := ⟨fuel - 1, by omega⟩
    rfl
  | cons c t ih =>
    intro fuel hf
    obtain ⟨f, rfl⟩ : ∃ f, fuel = f + 1 := ⟨fuel - 1, by omega⟩
    have ihh := ih f (by simp at hf; omega)
    have hv := char_bounds c
    have hofn : Char.ofNat c.toNat = c := Char.ofNat_toNat c
    rw [utf8Encode_cons, utf8EncodeChar]
    by_cases h1 : c.toNat < 128
    · rw [if_pos h1]
      simp only [List.append_eq, List.cons_append, List.nil_append, utf8DecodeAux]
      have hone : utf8DecodeOne c.toNat (utf8Encode t)
          = .ok (c.toNat, utf8Encode t) := by
        rw [utf8DecodeOne, if_pos h1]
      rw [hone, exceptBind_ok, ihh, exceptMap_ok, hofn]
    · by_cases h2 : c.toNat < 2048
      · rw [if_neg h1, if_pos h2]
        simp only [List.append_eq, List.cons_append, List.nil_append, utf8DecodeAux]
        have hone : utf8DecodeOne (192 + c.toNat / 64)
            ((128 + c.toNat % 64) :: utf8Encode t)
            = .ok (c.toNat, utf8Encode t) := by
          rw [utf8DecodeOne, if_neg (by omega), if_neg (by omega),
            if_pos (by omega), utf8Cont1, if_pos (by omega : 128 ≤ 128 +
              c.toNat % 64 ∧ 128 + c.toNat % 64 < 192)]
          have ev : (192 + c.toNat / 64 - 192) * 64 + (128 + c.toNat % 64 - 128)
              = c.toNat := by omega
          rw [if_pos (by omega), ev]
        rw [hone, exceptBind_ok, ihh, exceptMap_ok, hofn]
      · by_cases h3 : c.toNat < 65536
        · rw [if_neg h1, if_neg h2, if_pos h3]
          simp only [List.append_eq, List.cons_append, List.nil_append, utf8DecodeAux]
          have hone : utf8DecodeOne (224 + c.toNat / 4096)
              ((128 + c.toNat / 64 % 64) :: (128 + c.toNat % 64) :: utf8Encode t)
              = .ok (c.toNat, utf8Encode t) := by
            rw [utf8DecodeOne, if_neg (by omega), if_neg (by omega),
              if_neg (by omega), if_pos (by omega), utf8Cont2,
              if_pos (by omega : (128 ≤ 128 + c.toNat / 64 % 64
                ∧ 128 + c.toNat / 64 % 64 < 192)
                ∧ (128 ≤ 128 + c.toNat % 64 ∧ 128 + c.toNat % 64 < 192))]
            have ev : (224 + c.toNat / 4096 - 224) * 4096
                + (128 + c.toNat / 64 % 64 - 128) * 64 + (128 + c.toNat % 64 - 128)
                = c.toNat := by omega
            have hval : 2048 ≤ (224 + c.toNat / 4096 - 224) * 4096
                + (128 + c.toNat / 64 % 64 - 128) * 64 + (128 + c.toNat % 64 - 128)
                ∧ ¬(55296 ≤ (224 + c.toNat / 4096 - 224) * 4096
                  + (128 + c.toNat / 64 % 64 - 128) * 64 + (128 + c.toNat % 64 - 128)
                  ∧ (224 + c.toNat / 4096 - 224) * 4096
                  + (128 + c.toNat / 64 % 64 - 128) * 64 + (128 + c.toNat % 64 - 128)
                  ≤ 57343) := by
              rw [ev]
              rcases hv with h | ⟨ha, hb⟩ <;> omega
            rw [if_pos hval, ev]
          rw [hone, exceptBind_ok, ihh, exceptMap_ok, hofn]
        · rw [if_neg h1, if_neg h2, if_neg h3]
          simp only [List.append_eq, List.cons_append, List.nil_append, utf8DecodeAux]
          have hup : c.toNat < 1114112 := by
            rcases hv with h | ⟨_, hb⟩ <;> omega
          have hone : utf8DecodeOne (240 + c.toNat / 262144)
              ((128 + c.toNat / 4096 % 64) :: (128 + c.toNat / 64 % 64)
                :: (128 + c.toNat % 64) :: utf8Encode t)
              = .ok (c.toNat, utf8Encode t) := by
            rw [utf8DecodeOne, if_neg (by omega), if_neg (by omega),
              if_neg (by omega), if_neg (by omega), if_pos (by omega), utf8Cont3,
              if_pos (by omega : ((128 ≤ 128 + c.toNat / 4096 % 64
                ∧ 128 + c.toNat / 4096 % 64 < 192)
                ∧ (128 ≤ 128 + c.toNat / 64 % 64 ∧ 128 + c.toNat / 64 % 64 < 192))
                ∧ (128 ≤ 128 + c.toNat % 64 ∧ 128 + c.toNat % 64 < 192))]
            have ev : (240 + c.toNat / 262144 - 240) * 262144
                + (128 + c.toNat / 4096 % 64 - 128) * 4096
                + (128 + c.toNat / 64 % 64 - 128) * 64 + (128 + c.toNat % 64 - 128)
                = c.toNat := by omega
            rw [if_pos (by rw [ev]; exact ⟨by omega, hup⟩), ev]
          rw [hone, exceptBind_ok, ihh, exceptMap_ok, hofn]

theorem utf8_roundtrip (s : List Char) : utf8Decode (utf8Encode s) = .ok s := by
  rw [utf8Decode]
  exact utf8DecodeAux_roundtrip s _ (by
    have := utf8Encode_length_ge s
    omega)

theorem le32Bytes_lt (n : Nat) : ∀ b ∈ le32Bytes n, b < 256 := by
  intro b hb
  simp only [le32Bytes, List.mem_map, List.mem_range] at hb
  obtain ⟨i, -, rfl⟩ := hb
  exact Nat.mod_lt _ (by norm_num)

theorem storedBlock_lt (final : Bool) (c : List Nat) (hlen : c.length ≤ 65535)
    (h : ∀ b ∈ c, b < 256) : ∀ b ∈ storedBlock final c, b < 256 := by
  intro b hb
  simp only [storedBlock, List.mem_cons] at hb
  rcases hb with rfl | rfl | rfl | rfl | rfl | hb
  · split <;> omega
  · exact Nat.mod_lt _ (by norm_num)
  · omega
  · exact Nat.mod_lt _ (by norm_num)
  · omega
  · exact h b hb

theorem deflateChunks_lt (cs : List (List Nat))
    (hlen : ∀ c ∈ cs, c.length ≤ 65535)
    (h : ∀ c ∈ cs, ∀ b ∈ c, b < 256) :
    ∀ b ∈ deflateChunks cs, b < 256 := by
  induction cs using deflateChunks.induct with
  | case1 => intro b hb; simp [deflateChunks] at hb
  | case2 c =>
    intro b hb
    rw [deflateChunks] at hb
    exact storedBlock_lt true c (hlen c (by simp)) (h c (by simp)) b hb
  | case3 c c2 cs ih =>
    intro b hb
    rw [deflateChunks] at hb
    rcases List.mem_append.mp hb with hb | hb
    · exact storedBlock_lt false c (hlen c (by simp)) (h c (by simp)) b hb
    · exact ih (fun d hd => hlen d (by simp [hd]))
        (fun d hd => h d (by simp [hd])) b hb

theorem gzipCompress_lt (data : List Nat) (h : ∀ b ∈ data, b < 256) :
    ∀ b ∈ gzipCompress data, b < 256 := by
  intro b hb
  simp only [gzipCompress, gzipHeader, List.append_assoc, List.mem_append,
    List.mem_cons, List.not_mem_nil, or_false] at hb
  rcases hb with hb | hb | hb | hb
  · omega
  · exact deflateChunks_lt (chunksStored data) (chunksStored_le data)
      (fun c hc d hd => h d (chunksStored_mem_mem data c hc d hd)) b
      (by rwa [deflateStored] at hb)
  · exact le32Bytes_lt _ b hb
  · exact le32Bytes_lt _ b hb

/-- C7: for every text, including the empty string and arbitrary unicode,
`decompress_text (compress_text x)` succeeds and returns `x` exactly: the
base64, gzip and UTF-8 layers each round-trip. -/
theorem compress_decompress_roundtrip (x : List Char) :
    decompress_text (compress_text x) = .ok x := by
  rw [compress_text, decompress_text,
    b64_roundtrip _ (gzipCompress_lt _ (utf8Encode_lt x))]
  show Except.bind (Except.ok (gzipCompress (utf8Encode x)))
      (fun decoded => Except.bind (gunzip decoded) fun raw => utf8Decode raw)
    = Except.ok x
  rw [exceptBind_ok, gunzip_gzipCompress _ (utf8Encode_lt x), exceptBind_ok,
    utf8_roundtrip]

end PDFCrew
